import Mathlib

/-! # Circuit breaker (patterns/circuit-breaker/breaker.go)

A shallow embedding of `Breaker` and of the closure it returns, and the
properties of its gate, its bookkeeping and its returned values.

Conventions of the embedding

* Go `int` and `uint` are 64 bits wide (amd64, arm64); `time.Duration` is `int64`
  on every platform. A value of type `int` or `int64` is an `Int` kept in
  `[-2^63, 2^63)` by `wrapInt64`; a `uint` is a `Nat` below `2^64`.
* An instant of `time.Time` is its reading in nanoseconds on the clock line,
  an `Int`; `Add` is addition and `After` is the strict order.
* `time.Now()` is an input of each call: `nowGate` is what the clock returns at
  line 30 and `nowDone` what it returns at line 44.
* The wrapped circuit is a callable that reads and changes some world `σ`; the
  closure threads the world through the one place where it calls the circuit.
* Every lock operation and every invocation of the wrapped circuit is recorded,
  in program order, in the trace of the call.
-/

namespace CircuitBreaker

/-! ## Machine integers -/

/-- Two's complement reading of an integer in 64 bits: the value an `int`
(or `int64`) variable holds after Go's wrapping arithmetic. -/
def wrapInt64 (x : Int) : Int := (x + 2 ^ 63) % 2 ^ 64 - 2 ^ 63

/-- The conversion `int(u)` of a `uint`: same 64 bits, read as signed. -/
def intOfUint (u : Nat) : Int := wrapInt64 (u : Int)

/-- Go's `x << n` for an `int64` left operand and a signed count: a negative
count is a run-time panic (`none`); a count of 64 or more shifts every bit
out; otherwise the product with `2^n`, wrapped to 64 bits. -/
def shlInt64 (x : Int) (n : Int) : Option Int :=
  if n < 0 then none
  else if 64 ≤ n then some 0
  else some (wrapInt64 (x * 2 ^ n.toNat))

/-! ## Time, errors, circuits -/

/-- An instant, as `time.Time`: nanoseconds on the clock line. -/
structure Time where
  ns : Int
deriving DecidableEq, Repr

/-- The method `Time.Add(d)`. -/
def Time.Add (t : Time) (d : Int) : Time := ⟨t.ns + d⟩

/-- The method `t.After(u)`: `t` is strictly later than `u`. -/
def Time.After (t u : Time) : Bool := decide (u.ns < t.ns)

/-- A non-nil Go `error`, observed through the text of its `Error()` method.
The nil error is `none` in `Option GoError`. -/
structure GoError where
  text : String
deriving DecidableEq, Repr

/-- The function `errors.New`. -/
def errorsNew (text : String) : GoError := ⟨text⟩

/-- The interface `Circuit[T]` (lines 10-12): `Run(ctx)` returns `(T, error)`.
`κ` is `context.Context`, `σ` the world the callable acts on. -/
structure Circuit (κ σ T : Type) where
  Run : κ → σ → (T × Option GoError) × σ

/-- The type `CircuitFunc[T]` (line 14). -/
def CircuitFunc (κ σ T : Type) : Type := κ → σ → (T × Option GoError) × σ

/-- The method `CircuitFunc.Run` (lines 16-18): `return c(ctx)`. -/
def CircuitFunc.Run {κ σ T : Type} (c : CircuitFunc κ σ T) (ctx : κ) (w : σ) :
    (T × Option GoError) × σ :=
  c ctx w

/-- A `CircuitFunc` used where a `Circuit` is expected (it has the method `Run`). -/
def CircuitFunc.toCircuit {κ σ T : Type} (c : CircuitFunc κ σ T) : Circuit κ σ T :=
  ⟨c.Run⟩

/-! ## The breaker -/

/-- What a call does that an observer outside the closure can see: the
operations on the mutex `m` and the invocations of the wrapped circuit. -/
inductive Event (κ : Type) where
  | rLock
  | rUnlock
  | call (ctx : κ)
  | lock
  | unlock
deriving DecidableEq, Repr

/-- The variables captured by the closure (lines 21-22). -/
structure BreakerState where
  consecutiveFailures : Int
  lastAttempt : Time
deriving DecidableEq, Repr

/-- Lines 21-22: the captured variables right after `Breaker` returns; `now` is
the reading of `time.Now()` on line 22. -/
def Breaker.new (now : Time) : BreakerState :=
  { consecutiveFailures := 0, lastAttempt := now }

/-- All that one call of the closure leaves behind: the returned pair, the
captured variables, the world of the wrapped circuit and the trace. -/
structure RunResult (κ σ T : Type) where
  res : T
  err : Option GoError
  state : BreakerState
  world : σ
  trace : List (Event κ)
deriving DecidableEq, Repr

/-- Lines 37-53: release the read lock, call the wrapped circuit, then under
the write lock record the attempt and count or reset the failures. `pre` is
the trace of the call so far. -/
def Breaker.delegate {κ σ T : Type} (circuit : Circuit κ σ T) (nowDone : Time) (ctx : κ)
    (st : BreakerState) (w : σ) (pre : List (Event κ)) : RunResult κ σ T :=
  -- m.RUnlock(); res, err := circuit.Run(ctx)
  let out := circuit.Run ctx w
  let res := out.1.1
  let err := out.1.2
  -- m.Lock(); defer m.Unlock(); lastAttempt = time.Now(); the deferred unlock runs at return
  let tr : List (Event κ) := pre ++ [.rUnlock, .call ctx, .lock, .unlock]
  match err with
  | some e =>
    -- consecutiveFailures++; return res, err
    { res := res, err := some e,
      state := { consecutiveFailures := wrapInt64 (st.consecutiveFailures + 1),
                 lastAttempt := nowDone },
      world := out.2, trace := tr }
  | none =>
    -- consecutiveFailures = 0; return res, nil
    { res := res, err := none,
      state := { consecutiveFailures := 0, lastAttempt := nowDone },
      world := out.2, trace := tr }

/-- The closure returned by `Breaker(circuit, failureThreshold)` (lines 25-54),
called with `ctx` when the captured variables are `st` and the world is `w`.
`none` is a run-time panic of the closure itself. -/
def Breaker.Run {κ σ T : Type} [Inhabited T] (circuit : Circuit κ σ T) (failureThreshold : Nat)
    (nowGate nowDone : Time) (ctx : κ) (st : BreakerState) (w : σ) :
    Option (RunResult κ σ T) :=
  -- m.RLock(); d := consecutiveFailures - int(failureThreshold)
  let d := wrapInt64 (st.consecutiveFailures - intOfUint failureThreshold)
  if 0 ≤ d then
    -- shouldRetryAt := lastAttempt.Add(2 << d)
    match shlInt64 2 d with
    | none => none
    | some backoff =>
      let shouldRetryAt := st.lastAttempt.Add backoff
      if !(nowGate.After shouldRetryAt) then
        -- m.RUnlock(); var empty T; return empty, errors.New("service unreachable")
        some { res := default, err := some (errorsNew "service unreachable"),
               state := st, world := w, trace := [.rLock, .rUnlock] }
      else
        some (Breaker.delegate circuit nowDone ctx st w [.rLock])
  else
    some (Breaker.delegate circuit nowDone ctx st w [.rLock])

/-- The readings and the context one call is made with. -/
structure Call (κ : Type) where
  ctx : κ
  nowGate : Time
  nowDone : Time

/-- A sequential history: the calls are made one after the other on the same
breaker, each starting from the variables and the world the previous one left.
Returns the results in call order, then the variables and the world at the end. -/
def Breaker.runAll {κ σ T : Type} [Inhabited T] (circuit : Circuit κ σ T) (failureThreshold : Nat) :
    List (Call κ) → BreakerState → σ → Option (List (RunResult κ σ T) × BreakerState × σ)
  | [], st, w => some ([], st, w)
  | c :: cs, st, w =>
    match Breaker.Run circuit failureThreshold c.nowGate c.nowDone c.ctx st w with
    | none => none
    | some r =>
      match Breaker.runAll circuit failureThreshold cs r.state r.world with
      | none => none
      | some (rs, st1, w1) => some (r :: rs, st1, w1)

/-- The call returned without invoking the wrapped circuit. -/
def RunResult.shortCircuited {κ σ T : Type} (r : RunResult κ σ T) : Bool :=
  r.trace.all fun e => match e with
    | .call _ => false
    | _ => true

/-- The contexts the wrapped circuit was invoked with, in order. -/
def RunResult.calls {κ σ T : Type} (r : RunResult κ σ T) : List κ :=
  r.trace.filterMap fun e => match e with
    | .call c => some c
    | _ => none

/-- The value the closure returns on the early return of lines 31-33. -/
def Breaker.rejected {κ σ T : Type} [Inhabited T] (st : BreakerState) (w : σ) : RunResult κ σ T :=
  { res := default, err := some (errorsNew "service unreachable"),
    state := st, world := w, trace := [.rLock, .rUnlock] }

/-- How many of the calls of a history reached the wrapped circuit. -/
def delegatedCount {κ σ T : Type} (rs : List (RunResult κ σ T)) : Nat :=
  (rs.filter fun r => !r.shortCircuited).length

/-- How often the wrapped circuit was invoked in a history. -/
def invocations {κ σ T : Type} (rs : List (RunResult κ σ T)) : Nat :=
  (rs.map fun r => r.calls.length).sum

/-! ## The invocation contract in the words of the specification -/

/-- The cooldown of the specification: `backoff(d) = 2^(d+1)` nanoseconds. -/
def specBackoff (d : Int) : Int := 2 ^ (d.toNat + 1)

/-- The gate of the specification, steps 1 to 3 of the invocation contract:
with `d = consecutiveFailures - failureThreshold` over the integers, the call
is rejected when `d >= 0` and the clock has not passed `lastAttempt + backoff(d)`. -/
def specShortCircuits (failureThreshold : Nat) (st : BreakerState) (now : Time) : Bool :=
  decide (0 ≤ st.consecutiveFailures - (failureThreshold : Int)) &&
    !decide (st.lastAttempt.ns
      + specBackoff (st.consecutiveFailures - (failureThreshold : Int)) < now.ns)

/-- Every gate reading of the history is later than the cooldown of a breaker
whose failures are exactly at the threshold (2 ns after the last attempt, `t`
being the last attempt before the first call). -/
def spacedBeyondCooldown {κ : Type} : Time → List (Call κ) → Bool
  | _, [] => true
  | t, c :: cs => decide (t.ns + specBackoff 0 < c.nowGate.ns) && spacedBeyondCooldown c.nowDone cs

/-! ## Stub circuits

The world of a stub is the number of times it has been invoked. -/

/-- A circuit that fails on every invocation. -/
def alwaysFails : Circuit Unit Nat Nat :=
  ⟨fun _ n => ((0, some (errorsNew "downstream failed")), n + 1)⟩

/-- A circuit that succeeds on every invocation, returning 42. -/
def alwaysSucceeds : Circuit Unit Nat Nat :=
  ⟨fun _ n => ((42, none), n + 1)⟩

/-- A circuit that fails on its first invocation and succeeds from then on. -/
def failsOnce : Circuit Unit Nat Nat :=
  ⟨fun _ n => (if n = 0 then (0, some (errorsNew "downstream failed")) else (42, none), n + 1)⟩

/-- A circuit that fails and still returns a value next to the error. -/
def failsWithValue : Circuit Unit Nat Nat :=
  ⟨fun _ n => ((7, some (errorsNew "context canceled")), n + 1)⟩

/-! ## The two critical sections, and calls that run side by side

The mutex `m` splits the closure into a section under the read lock (lines
26-37), the call of the wrapped circuit under no lock (line 39), and a section
under the write lock (lines 41-53). A pool of calls advances one section at a
time; the order of the sections of different calls is the interleaving. -/

/-- Lines 26-37, the section under the read lock, which only reads the
captured variables: `some true` when the call goes on to the wrapped circuit,
`some false` when it returns early on line 33, `none` when the shift panics. -/
def Breaker.gate (failureThreshold : Nat) (nowGate : Time) (st : BreakerState) : Option Bool :=
  -- d := consecutiveFailures - int(failureThreshold)
  let d := wrapInt64 (st.consecutiveFailures - intOfUint failureThreshold)
  if 0 ≤ d then
    -- shouldRetryAt := lastAttempt.Add(2 << d)
    match shlInt64 2 d with
    | none => none
    | some backoff =>
      let shouldRetryAt := st.lastAttempt.Add backoff
      if !(nowGate.After shouldRetryAt) then some false else some true
  else
    some true

/-- Lines 41-53, the section under the write lock: `lastAttempt = time.Now()`,
then the counter is incremented on an error and reset otherwise. -/
def Breaker.record (nowDone : Time) (err : Option GoError) (st : BreakerState) : BreakerState :=
  match err with
  | some _ =>
    { consecutiveFailures := wrapInt64 (st.consecutiveFailures + 1), lastAttempt := nowDone }
  | none =>
    { consecutiveFailures := 0, lastAttempt := nowDone }

/-- Where a call of the closure stands. -/
inductive Pc (T : Type) where
  /-- Before line 26. -/
  | atGate
  /-- The read lock is released (line 37), the circuit is not yet invoked. -/
  | passed
  /-- The circuit has returned (line 39), the write lock is not yet taken. -/
  | invoked (res : T) (err : Option GoError)
  /-- The call has returned this pair. -/
  | returned (res : T) (err : Option GoError)
deriving DecidableEq, Repr

/-- One call in flight: its context, the clock readings it will get, and where it stands. -/
structure Thread (κ T : Type) where
  ctx : κ
  nowGate : Time
  nowDone : Time
  pc : Pc T
deriving DecidableEq, Repr

/-- The captured variables and the world, shared by the calls in flight. -/
structure Pool (κ σ T : Type) where
  state : BreakerState
  world : σ
  threads : List (Thread κ T)
deriving DecidableEq, Repr

/-- The call number `i` runs its next section. `none` when there is no such
call, when it has already returned, or when the section panics. -/
def Breaker.step {κ σ T : Type} [Inhabited T] (circuit : Circuit κ σ T) (failureThreshold : Nat)
    (i : Nat) (s : Pool κ σ T) : Option (Pool κ σ T) :=
  match s.threads.get? i with
  | none => none
  | some t =>
    match t.pc with
    | .atGate =>
      match Breaker.gate failureThreshold t.nowGate s.state with
      | none => none
      | some true =>
        some ⟨s.state, s.world, s.threads.set i ⟨t.ctx, t.nowGate, t.nowDone, .passed⟩⟩
      | some false =>
        some ⟨s.state, s.world, s.threads.set i
          ⟨t.ctx, t.nowGate, t.nowDone,
            .returned default (some (errorsNew "service unreachable"))⟩⟩
    | .passed =>
      let out := circuit.Run t.ctx s.world
      some ⟨s.state, out.2,
        s.threads.set i ⟨t.ctx, t.nowGate, t.nowDone, .invoked out.1.1 out.1.2⟩⟩
    | .invoked res err =>
      some ⟨Breaker.record t.nowDone err s.state, s.world,
        s.threads.set i ⟨t.ctx, t.nowGate, t.nowDone, .returned res err⟩⟩
    | .returned _ _ => none

/-- An interleaving: the calls named by the schedule run one section each, in that order. -/
def Breaker.exec {κ σ T : Type} [Inhabited T] (circuit : Circuit κ σ T) (failureThreshold : Nat) :
    List Nat → Pool κ σ T → Option (Pool κ σ T)
  | [], s => some s
  | i :: is, s =>
    match Breaker.step circuit failureThreshold i s with
    | none => none
    | some s1 => Breaker.exec circuit failureThreshold is s1

/-! ## The lock discipline, as a check on traces -/

/-- What is held and what has happened at a point of a trace. -/
structure Locks where
  readHeld : Bool
  writeHeld : Bool
  invoked : Bool
deriving DecidableEq, Repr

/-- One event against the discipline of the specification: a lock is taken
only when none is held, the wrapped circuit is invoked under no lock, the
write lock is taken only after the invocation, and only a lock that is held
is released. `none` when the event breaks the discipline. -/
def Locks.after {κ : Type} (l : Locks) : Event κ → Option Locks
  | .rLock =>
    if !l.readHeld && !l.writeHeld && !l.invoked then some ⟨true, l.writeHeld, l.invoked⟩
    else none
  | .rUnlock => if l.readHeld then some ⟨false, l.writeHeld, l.invoked⟩ else none
  | .call _ => if !l.readHeld && !l.writeHeld then some ⟨l.readHeld, l.writeHeld, true⟩ else none
  | .lock =>
    if !l.readHeld && !l.writeHeld && l.invoked then some ⟨l.readHeld, true, l.invoked⟩
    else none
  | .unlock => if l.writeHeld then some ⟨l.readHeld, false, l.invoked⟩ else none

/-- The trace keeps the discipline from `l` on and ends with no lock held. -/
def lockDiscipline {κ : Type} : Locks → List (Event κ) → Bool
  | l, [] => !l.readHeld && !l.writeHeld
  | l, e :: es =>
    match l.after e with
    | none => false
    | some l1 => lockDiscipline l1 es

/-! ## The count the counter stands for -/

/-- One call against the count of failing delegated calls since the most
recent succeeding delegated call: a rejected call leaves it, a delegated
failure adds one, a delegated success sets it to 0. -/
def countCall {κ σ T : Type} (n : Nat) (r : RunResult κ σ T) : Nat :=
  if r.shortCircuited then n else if r.err.isSome then n + 1 else 0

/-- The number of failing delegated calls of a history since its most recent
succeeding delegated call, or since its start when none succeeded. -/
def trailingFailures {κ σ T : Type} (rs : List (RunResult κ σ T)) : Nat :=
  rs.foldl countCall 0

/-! ## Arithmetic of the machine integers -/

theorem wrapInt64_eq (x : Int) :
    wrapInt64 x = (x + 9223372036854775808) % 18446744073709551616 - 9223372036854775808 := by
  simp only [wrapInt64]; norm_num

theorem wrapInt64_of_range {x : Int} (h1 : -9223372036854775808 ≤ x) (h2 : x < 9223372036854775808) :
    wrapInt64 x = x := by
  rw [wrapInt64_eq]; omega

theorem wrapInt64_range (x : Int) :
    -9223372036854775808 ≤ wrapInt64 x ∧ wrapInt64 x < 9223372036854775808 := by
  rw [wrapInt64_eq]; omega

theorem wrapInt64_add_wrap (a b : Int) : wrapInt64 (wrapInt64 a + b) = wrapInt64 (a + b) := by
  simp only [wrapInt64_eq]; omega

theorem wrapInt64_sub_wrap (a b : Int) : wrapInt64 (a - wrapInt64 b) = wrapInt64 (a - b) := by
  simp only [wrapInt64_eq]; omega

theorem shlInt64_eq_wrap (x n : Int) (h : 0 ≤ n) :
    shlInt64 x n = some (wrapInt64 (x * 2 ^ n.toNat)) := by
  unfold shlInt64
  rw [if_neg (by omega)]
  split
  · rename_i h64
    congr 1
    obtain ⟨k, hk⟩ : ∃ k : Nat, n.toNat = 64 + k := ⟨n.toNat - 64, by omega⟩
    rw [hk, pow_add, wrapInt64_eq]
    have : x * ((2:Int) ^ 64 * 2 ^ k) = 18446744073709551616 * (x * 2 ^ k) := by ring
    rw [this]
    generalize x * 2 ^ k = y
    omega
  · rfl

theorem shlInt64_two_of_le (d : Int) (h0 : 0 ≤ d) (h1 : d ≤ 61) :
    shlInt64 2 d = some (2 ^ (d.toNat + 1)) := by
  rw [shlInt64_eq_wrap 2 d h0]
  congr 1
  have hd : d.toNat ≤ 61 := by omega
  have e : (2 : Int) * 2 ^ d.toNat = 2 ^ (d.toNat + 1) := by ring
  rw [e]
  apply wrapInt64_of_range
  · have : (0 : Int) ≤ 2 ^ (d.toNat + 1) := by positivity
    omega
  · calc (2 : Int) ^ (d.toNat + 1) ≤ 2 ^ 62 := by
          apply pow_le_pow_right₀ (by norm_num) (by omega)
      _ < 9223372036854775808 := by norm_num

/-! ## One call: the two paths -/

theorem delegate_trace {κ σ T : Type} (circuit : Circuit κ σ T) (nowDone : Time) (ctx : κ) (st : BreakerState)
    (w : σ) (pre : List (Event κ)) :
    (Breaker.delegate circuit nowDone ctx st w pre).trace
      = pre ++ [.rUnlock, .call ctx, .lock, .unlock] := by
  unfold Breaker.delegate
  cases h : (circuit.Run ctx w).1.2 <;> simp [h]

theorem delegate_pair {κ σ T : Type} (circuit : Circuit κ σ T) (nowDone : Time) (ctx : κ) (st : BreakerState)
    (w : σ) (pre : List (Event κ)) :
    ((Breaker.delegate circuit nowDone ctx st w pre).res,
      (Breaker.delegate circuit nowDone ctx st w pre).err) = (circuit.Run ctx w).1 := by
  unfold Breaker.delegate
  cases h : (circuit.Run ctx w).1.2 <;> simp [h] <;> rw [← h]

theorem delegate_world {κ σ T : Type} (circuit : Circuit κ σ T) (nowDone : Time) (ctx : κ) (st : BreakerState)
    (w : σ) (pre : List (Event κ)) :
    (Breaker.delegate circuit nowDone ctx st w pre).world = (circuit.Run ctx w).2 := by
  unfold Breaker.delegate
  cases h : (circuit.Run ctx w).1.2 <;> simp [h]

theorem delegate_lastAttempt {κ σ T : Type} (circuit : Circuit κ σ T) (nowDone : Time) (ctx : κ)
    (st : BreakerState) (w : σ) (pre : List (Event κ)) :
    (Breaker.delegate circuit nowDone ctx st w pre).state.lastAttempt = nowDone := by
  unfold Breaker.delegate
  cases h : (circuit.Run ctx w).1.2 <;> simp [h]

theorem delegate_failures {κ σ T : Type} (circuit : Circuit κ σ T) (nowDone : Time) (ctx : κ)
    (st : BreakerState) (w : σ) (pre : List (Event κ)) :
    (Breaker.delegate circuit nowDone ctx st w pre).state.consecutiveFailures
      = if (circuit.Run ctx w).1.2 = none then 0 else wrapInt64 (st.consecutiveFailures + 1) := by
  unfold Breaker.delegate
  cases h : (circuit.Run ctx w).1.2 <;> simp [h]

theorem delegate_not_shortCircuited {κ σ T : Type} (circuit : Circuit κ σ T) (nowDone : Time) (ctx : κ)
    (st : BreakerState) (w : σ) :
    (Breaker.delegate circuit nowDone ctx st w [.rLock]).shortCircuited = false := by
  simp [RunResult.shortCircuited, delegate_trace]

theorem delegate_calls {κ σ T : Type} (circuit : Circuit κ σ T) (nowDone : Time) (ctx : κ)
    (st : BreakerState) (w : σ) :
    (Breaker.delegate circuit nowDone ctx st w [.rLock]).calls = [ctx] := by
  simp [RunResult.calls, delegate_trace, List.filterMap]

theorem rejected_shortCircuited {κ σ T : Type} [Inhabited T] (st : BreakerState) (w : σ) :
    (Breaker.rejected st w : RunResult κ σ T).shortCircuited = true := by
  simp [RunResult.shortCircuited, Breaker.rejected]

/-- The closure returns on exactly one of its two paths, and which one is
decided by the gate of lines 27-30. -/
theorem Run_cases {κ σ T : Type} [Inhabited T] (circuit : Circuit κ σ T) (failureThreshold : Nat) (nowGate nowDone : Time)
    (ctx : κ) (st : BreakerState) (w : σ) :
    (∃ backoff,
        0 ≤ wrapInt64 (st.consecutiveFailures - intOfUint failureThreshold) ∧
        shlInt64 2 (wrapInt64 (st.consecutiveFailures - intOfUint failureThreshold)) = some backoff ∧
        nowGate.ns ≤ st.lastAttempt.ns + backoff ∧
        Breaker.Run circuit failureThreshold nowGate nowDone ctx st w
          = some (Breaker.rejected st w)) ∨
    ((wrapInt64 (st.consecutiveFailures - intOfUint failureThreshold) < 0 ∨
        ∃ backoff,
          shlInt64 2 (wrapInt64 (st.consecutiveFailures - intOfUint failureThreshold)) = some backoff ∧
          st.lastAttempt.ns + backoff < nowGate.ns) ∧
      Breaker.Run circuit failureThreshold nowGate nowDone ctx st w
        = some (Breaker.delegate circuit nowDone ctx st w [.rLock])) := by
  unfold Breaker.Run
  by_cases hd : 0 ≤ wrapInt64 (st.consecutiveFailures - intOfUint failureThreshold)
  · obtain ⟨b, hb⟩ : ∃ b, shlInt64 2 (wrapInt64 (st.consecutiveFailures - intOfUint failureThreshold))
        = some b := ⟨_, shlInt64_eq_wrap 2 _ hd⟩
    by_cases hgate : st.lastAttempt.ns + b < nowGate.ns
    · right
      refine ⟨Or.inr ⟨b, hb, hgate⟩, ?_⟩
      simp [hd, hb, Time.After, Time.Add, hgate]
    · left
      refine ⟨b, hd, hb, by omega, ?_⟩
      simp [hd, hb, Time.After, Time.Add, hgate, Breaker.rejected]
  · right
    refine ⟨Or.inl (by omega), ?_⟩
    simp [hd]

/-- The closure never panics: it always returns, on one of the two paths. -/
theorem Run_eq_rejected_or_delegate {κ σ T : Type} [Inhabited T] (circuit : Circuit κ σ T) (failureThreshold : Nat)
    (nowGate nowDone : Time) (ctx : κ) (st : BreakerState) (w : σ) :
    Breaker.Run circuit failureThreshold nowGate nowDone ctx st w = some (Breaker.rejected st w) ∨
    Breaker.Run circuit failureThreshold nowGate nowDone ctx st w
      = some (Breaker.delegate circuit nowDone ctx st w [.rLock]) := by
  rcases Run_cases circuit failureThreshold nowGate nowDone ctx st w with ⟨_, _, _, _, h⟩ | ⟨_, h⟩
  · exact Or.inl h
  · exact Or.inr h

theorem Run_shortCircuited {κ σ T : Type} [Inhabited T] {circuit : Circuit κ σ T} {failureThreshold : Nat}
    {nowGate nowDone : Time} {ctx : κ} {st : BreakerState} {w : σ} {r : RunResult κ σ T}
    (h : Breaker.Run circuit failureThreshold nowGate nowDone ctx st w = some r)
    (hsc : r.shortCircuited = true) : r = Breaker.rejected st w := by
  rcases Run_eq_rejected_or_delegate circuit failureThreshold nowGate nowDone ctx st w with h1 | h1
  · rw [h1] at h; exact (Option.some.inj h).symm
  · rw [h1] at h
    have := Option.some.inj h
    subst this
    rw [delegate_not_shortCircuited] at hsc
    exact absurd hsc (by simp)

theorem Run_delegated {κ σ T : Type} [Inhabited T] {circuit : Circuit κ σ T} {failureThreshold : Nat}
    {nowGate nowDone : Time} {ctx : κ} {st : BreakerState} {w : σ} {r : RunResult κ σ T}
    (h : Breaker.Run circuit failureThreshold nowGate nowDone ctx st w = some r)
    (hsc : r.shortCircuited = false) : r = Breaker.delegate circuit nowDone ctx st w [.rLock] := by
  rcases Run_eq_rejected_or_delegate circuit failureThreshold nowGate nowDone ctx st w with h1 | h1
  · rw [h1] at h
    have := Option.some.inj h
    subst this
    rw [rejected_shortCircuited] at hsc
    exact absurd hsc (by simp)
  · rw [h1] at h; exact (Option.some.inj h).symm

/-! ## The short-circuit path -/

/-- C2: a call that is short-circuited leaves `consecutiveFailures` and
`lastAttempt` as they were, leaves the world of the wrapped circuit (so any
invocation counter it keeps) as it was, and invokes the wrapped circuit zero
times. -/
theorem shortCircuit_changes_nothing {κ σ T : Type} [Inhabited T] (circuit : Circuit κ σ T)
    (failureThreshold : Nat) (nowGate nowDone : Time) (ctx : κ) (st : BreakerState) (w : σ)
    (r : RunResult κ σ T)
    (h : Breaker.Run circuit failureThreshold nowGate nowDone ctx st w = some r)
    (hsc : r.shortCircuited = true) :
    r.state.consecutiveFailures = st.consecutiveFailures ∧
    r.state.lastAttempt = st.lastAttempt ∧
    r.world = w ∧
    r.calls = [] := by
  have hr := Run_shortCircuited h hsc
  subst hr
  simp [Breaker.rejected, RunResult.calls]

/-- C2, at a breaker with threshold 2 and two failures on record, called 1 ns
after the last attempt: the stub has been invoked twice before and after. -/
theorem shortCircuit_changes_nothing_witness :
    (Breaker.Run alwaysFails 2 ⟨101⟩ ⟨102⟩ () ⟨2, ⟨100⟩⟩ 2
        = some (Breaker.rejected ⟨2, ⟨100⟩⟩ 2) ∧
      (Breaker.rejected ⟨2, ⟨100⟩⟩ 2 : RunResult Unit Nat Nat).shortCircuited = true) ∧
    ((Breaker.rejected ⟨2, ⟨100⟩⟩ 2 : RunResult Unit Nat Nat).state.consecutiveFailures = 2 ∧
      (Breaker.rejected ⟨2, ⟨100⟩⟩ 2 : RunResult Unit Nat Nat).state.lastAttempt = ⟨100⟩ ∧
      (Breaker.rejected ⟨2, ⟨100⟩⟩ 2 : RunResult Unit Nat Nat).world = 2 ∧
      (Breaker.rejected ⟨2, ⟨100⟩⟩ 2 : RunResult Unit Nat Nat).calls = []) :=
  ⟨⟨by decide, by decide⟩,
    shortCircuit_changes_nothing alwaysFails 2 ⟨101⟩ ⟨102⟩ () ⟨2, ⟨100⟩⟩ 2 _ (by decide) (by decide)⟩

/-- C4: for every result type, a call that is short-circuited returns the
zero value of the type and a non-nil error whose text is exactly
"service unreachable". -/
theorem shortCircuit_returns_unreachable {κ σ T : Type} [Inhabited T] (circuit : Circuit κ σ T)
    (failureThreshold : Nat) (nowGate nowDone : Time) (ctx : κ) (st : BreakerState) (w : σ)
    (r : RunResult κ σ T)
    (h : Breaker.Run circuit failureThreshold nowGate nowDone ctx st w = some r)
    (hsc : r.shortCircuited = true) :
    r.res = default ∧ ∃ e, r.err = some e ∧ e.text = "service unreachable" := by
  have hr := Run_shortCircuited h hsc
  subst hr
  exact ⟨rfl, errorsNew "service unreachable", rfl, rfl⟩

/-- C4, at a breaker with threshold 0 called at the instant of its last attempt. -/
theorem shortCircuit_returns_unreachable_witness :
    (Breaker.rejected ⟨0, ⟨0⟩⟩ 0 : RunResult Unit Nat Nat).res = 0 ∧
    ∃ e, (Breaker.rejected ⟨0, ⟨0⟩⟩ 0 : RunResult Unit Nat Nat).err = some e ∧
      e.text = "service unreachable" :=
  shortCircuit_returns_unreachable alwaysSucceeds 0 ⟨0⟩ ⟨1⟩ () ⟨0, ⟨0⟩⟩ 0 _ (by decide) (by decide)

/-! ## The delegation path -/

/-- C3: a call that delegates returns exactly the pair the wrapped circuit
returned: the same result value and the same error, nil or not. -/
theorem delegated_returns_circuit_pair {κ σ T : Type} [Inhabited T] (circuit : Circuit κ σ T)
    (failureThreshold : Nat) (nowGate nowDone : Time) (ctx : κ) (st : BreakerState) (w : σ)
    (r : RunResult κ σ T)
    (h : Breaker.Run circuit failureThreshold nowGate nowDone ctx st w = some r)
    (hd : r.shortCircuited = false) :
    (r.res, r.err) = (circuit.Run ctx w).1 := by
  have hr := Run_delegated h hd
  subst hr
  exact delegate_pair circuit nowDone ctx st w _

/-- C3, with a circuit that returns the value 7 next to its error: both come
back from the breaker. -/
theorem delegated_returns_circuit_pair_witness :
    (Breaker.Run failsWithValue 3 ⟨10⟩ ⟨20⟩ () ⟨0, ⟨0⟩⟩ 0
        = some (Breaker.delegate failsWithValue ⟨20⟩ () ⟨0, ⟨0⟩⟩ 0 [.rLock]) ∧
      (Breaker.delegate failsWithValue ⟨20⟩ () ⟨0, ⟨0⟩⟩ 0 [.rLock]).shortCircuited = false) ∧
    ((Breaker.delegate failsWithValue ⟨20⟩ () ⟨0, ⟨0⟩⟩ 0 [.rLock]).res,
      (Breaker.delegate failsWithValue ⟨20⟩ () ⟨0, ⟨0⟩⟩ 0 [.rLock]).err)
      = (failsWithValue.Run () 0).1 ∧
    (failsWithValue.Run () 0).1 = (7, some (errorsNew "context canceled")) :=
  ⟨⟨by decide, by decide⟩,
    delegated_returns_circuit_pair failsWithValue 3 ⟨10⟩ ⟨20⟩ () ⟨0, ⟨0⟩⟩ 0 _
      (by decide) (by decide),
    by decide⟩

/-- C5, as stated, fails at the largest `int`: with 9223372036854775807
failures on record a failing delegated call leaves -9223372036854775808, not
the previous value plus 1. -/
theorem increment_wraps_at_largest_int :
    Breaker.Run alwaysFails 5 ⟨10⟩ ⟨11⟩ () ⟨9223372036854775807, ⟨0⟩⟩ 0
      = some { res := 0, err := some (errorsNew "downstream failed"),
               state := ⟨-9223372036854775808, ⟨11⟩⟩, world := 1,
               trace := [.rLock, .rUnlock, .call (), .lock, .unlock] } ∧
    (-9223372036854775808 : Int) ≠ 9223372036854775807 + 1 := by
  decide

/-- C5, amended: after a call that delegates, `lastAttempt` is the clock
reading taken after the wrapped circuit returned; `consecutiveFailures` is 0
if the circuit returned a nil error; if it returned any non-nil error it is
the previous value plus 1 in 64-bit wrapping arithmetic, which is the
previous value plus exactly 1 whenever the previous value is an `int` below
the largest one. -/
theorem delegated_bookkeeping {κ σ T : Type} [Inhabited T] (circuit : Circuit κ σ T)
    (failureThreshold : Nat) (nowGate nowDone : Time) (ctx : κ) (st : BreakerState) (w : σ)
    (r : RunResult κ σ T)
    (h : Breaker.Run circuit failureThreshold nowGate nowDone ctx st w = some r)
    (hd : r.shortCircuited = false) :
    r.state.lastAttempt = nowDone ∧
    ((circuit.Run ctx w).1.2 = none → r.state.consecutiveFailures = 0) ∧
    ((circuit.Run ctx w).1.2 ≠ none →
      r.state.consecutiveFailures = wrapInt64 (st.consecutiveFailures + 1)) ∧
    ((circuit.Run ctx w).1.2 ≠ none →
      -2 ^ 63 ≤ st.consecutiveFailures → st.consecutiveFailures < 2 ^ 63 - 1 →
      r.state.consecutiveFailures = st.consecutiveFailures + 1) := by
  have hr := Run_delegated h hd
  subst hr
  refine ⟨delegate_lastAttempt _ _ _ _ _ _, ?_, ?_, ?_⟩
  · intro hn
    rw [delegate_failures, if_pos hn]
  · intro hn
    rw [delegate_failures, if_neg hn]
  · intro hn h1 h2
    rw [delegate_failures, if_neg hn]
    apply wrapInt64_of_range
    · norm_num at h1; omega
    · norm_num at h2; omega

/-- C5 amended, at a breaker with threshold 3 and one failure on record, whose
circuit fails with a cancellation error: the counter goes from 1 to 2 and the
last attempt is the reading taken after the circuit returned. -/
theorem delegated_bookkeeping_witness :
    (Breaker.Run failsWithValue 3 ⟨10⟩ ⟨20⟩ () ⟨1, ⟨0⟩⟩ 0
        = some (Breaker.delegate failsWithValue ⟨20⟩ () ⟨1, ⟨0⟩⟩ 0 [.rLock]) ∧
      (Breaker.delegate failsWithValue ⟨20⟩ () ⟨1, ⟨0⟩⟩ 0 [.rLock]).shortCircuited = false ∧
      (failsWithValue.Run () 0).1.2 ≠ none) ∧
    (Breaker.delegate failsWithValue ⟨20⟩ () ⟨1, ⟨0⟩⟩ 0 [.rLock]).state.lastAttempt = ⟨20⟩ ∧
    (Breaker.delegate failsWithValue ⟨20⟩ () ⟨1, ⟨0⟩⟩ 0 [.rLock]).state.consecutiveFailures
      = 1 + 1 :=
  have key := delegated_bookkeeping failsWithValue 3 ⟨10⟩ ⟨20⟩ () ⟨1, ⟨0⟩⟩ 0 _
    (by decide) (by decide)
  ⟨⟨by decide, by decide, by decide⟩, key.1, key.2.2.2 (by decide) (by decide) (by decide)⟩

/-! ## The gate against the specification -/

theorem intOfUint_of_lt {u : Nat} (h : u < 2 ^ 63) : intOfUint u = u := by
  unfold intOfUint
  apply wrapInt64_of_range
  · omega
  · norm_num at h; omega

/-- Where no 64-bit quantity overflows (a threshold below `2^63`, a counter
that is a non-negative `int`, and at most 61 failures above the threshold),
the gate of the closure is the gate of the specification: the call is
short-circuited exactly when `d >= 0` and the clock has not passed
`lastAttempt + 2^(d+1)`, the boundary included, and otherwise the wrapped
circuit is invoked exactly once, with the context of the caller. -/
theorem gate_matches_spec_in_range {κ σ T : Type} [Inhabited T] (circuit : Circuit κ σ T)
    (failureThreshold : Nat) (nowGate nowDone : Time) (ctx : κ) (st : BreakerState) (w : σ)
    (r : RunResult κ σ T)
    (hthr : failureThreshold < 2 ^ 63)
    (hcf0 : 0 ≤ st.consecutiveFailures) (hcf : st.consecutiveFailures < 2 ^ 63)
    (hd61 : st.consecutiveFailures - (failureThreshold : Int) ≤ 61)
    (h : Breaker.Run circuit failureThreshold nowGate nowDone ctx st w = some r) :
    (r.shortCircuited = true ↔ specShortCircuits failureThreshold st nowGate = true) ∧
    (r.shortCircuited = false → r.calls = [ctx] ∧ r.world = (circuit.Run ctx w).2) := by
  have hthr2 : (failureThreshold : Int) < 9223372036854775808 := by
    have : failureThreshold < 9223372036854775808 := by norm_num at hthr; exact hthr
    exact_mod_cast this
  have hcf2 : st.consecutiveFailures < 9223372036854775808 := by norm_num at hcf; exact hcf
  have hdv : wrapInt64 (st.consecutiveFailures - intOfUint failureThreshold)
      = st.consecutiveFailures - (failureThreshold : Int) := by
    rw [intOfUint_of_lt hthr]
    apply wrapInt64_of_range <;> omega
  rcases Run_cases circuit failureThreshold nowGate nowDone ctx st w with
    ⟨b, h0, hb, hle, hrun⟩ | ⟨hopen, hrun⟩
  · rw [hrun] at h
    have hr := (Option.some.inj h).symm
    subst hr
    rw [hdv] at h0 hb
    rw [shlInt64_two_of_le _ h0 hd61] at hb
    have hb2 := (Option.some.inj hb).symm
    subst hb2
    refine ⟨?_, ?_⟩
    · simp only [rejected_shortCircuited, true_iff]
      simp only [specShortCircuits, specBackoff, Bool.and_eq_true, decide_eq_true_eq,
        Bool.not_eq_true', decide_eq_false_iff_not]
      exact ⟨h0, by omega⟩
    · intro hf
      rw [rejected_shortCircuited] at hf
      exact absurd hf (by simp)
  · rw [hrun] at h
    have hr := (Option.some.inj h).symm
    subst hr
    rw [hdv] at hopen
    refine ⟨?_, ?_⟩
    · simp only [delegate_not_shortCircuited, Bool.false_eq_true, false_iff]
      simp only [specShortCircuits, specBackoff, Bool.and_eq_true, decide_eq_true_eq,
        Bool.not_eq_true', decide_eq_false_iff_not, not_and, not_not]
      intro h0
      rcases hopen with hneg | ⟨b, hb, hlt⟩
      · omega
      · rw [shlInt64_two_of_le _ h0 hd61] at hb
        have hb2 := (Option.some.inj hb).symm
        subst hb2
        exact hlt
    · intro _
      exact ⟨delegate_calls _ _ _ _ _, delegate_world _ _ _ _ _ _⟩

/-- C1 fails on the code where 64-bit quantities overflow. First input: a
fresh breaker with threshold 18446744073709551576 (`2^64 - 40`) called one
second after its construction. The specification has `d < 0` and lets the
call through; the closure computes `d = 0 - int(threshold) = 40`, a cooldown
of `2 << 40` ns, and rejects the call. Second input: threshold 0 and 63
failures on record, called 1 ns after the last attempt. The specification is
still inside the cooldown `2^64` ns; in the closure `2 << 63` is 0 and the
call goes through to the circuit. -/
theorem gate_differs_from_spec_on_overflow :
    (specShortCircuits 18446744073709551576 (Breaker.new ⟨0⟩) ⟨1000000000⟩ = false ∧
      Breaker.Run alwaysSucceeds 18446744073709551576 ⟨1000000000⟩ ⟨1000000001⟩ ()
          (Breaker.new ⟨0⟩) 0
        = some { res := 0, err := some (errorsNew "service unreachable"),
                 state := ⟨0, ⟨0⟩⟩, world := 0, trace := [.rLock, .rUnlock] }) ∧
    (specShortCircuits 0 ⟨63, ⟨0⟩⟩ ⟨1⟩ = true ∧
      Breaker.Run alwaysSucceeds 0 ⟨1⟩ ⟨2⟩ () ⟨63, ⟨0⟩⟩ 0
        = some { res := 42, err := none,
                 state := ⟨0, ⟨2⟩⟩, world := 1,
                 trace := [.rLock, .rUnlock, .call (), .lock, .unlock] }) := by
  decide

/-- The gate in range, at threshold 2 with two failures on record: a call at
the boundary instant `lastAttempt + 2` is rejected by the closure and by the
specification alike. -/
theorem gate_matches_spec_in_range_witness :
    (Breaker.rejected ⟨2, ⟨100⟩⟩ 2 : RunResult Unit Nat Nat).shortCircuited = true ↔
      specShortCircuits 2 ⟨2, ⟨100⟩⟩ ⟨102⟩ = true :=
  (gate_matches_spec_in_range alwaysFails 2 ⟨102⟩ ⟨103⟩ () ⟨2, ⟨100⟩⟩ 2 _
    (by decide) (by decide) (by decide) (by decide) (by decide)).1

/-! ## Histories -/

theorem runAll_cons_eq {κ σ T : Type} [Inhabited T] (circuit : Circuit κ σ T)
    (failureThreshold : Nat) (c : Call κ) (cs : List (Call κ)) (st : BreakerState) (w : σ)
    (r : RunResult κ σ T)
    (h : Breaker.Run circuit failureThreshold c.nowGate c.nowDone c.ctx st w = some r) :
    Breaker.runAll circuit failureThreshold (c :: cs) st w
      = (Breaker.runAll circuit failureThreshold cs r.state r.world).map
          fun out => (r :: out.1, out.2.1, out.2.2) := by
  simp only [Breaker.runAll, h]
  cases Breaker.runAll circuit failureThreshold cs r.state r.world with
  | none => rfl
  | some out => rfl

/-- A history never panics: every call returns and the history has a result. -/
theorem runAll_total {κ σ T : Type} [Inhabited T] (circuit : Circuit κ σ T)
    (failureThreshold : Nat) (calls : List (Call κ)) (st : BreakerState) (w : σ) :
    ∃ out, Breaker.runAll circuit failureThreshold calls st w = some out := by
  induction calls generalizing st w with
  | nil => exact ⟨_, rfl⟩
  | cons c cs ih =>
    have hr : ∃ r, Breaker.Run circuit failureThreshold c.nowGate c.nowDone c.ctx st w = some r := by
      rcases Run_eq_rejected_or_delegate circuit failureThreshold c.nowGate c.nowDone c.ctx st w
        with h | h <;> exact ⟨_, h⟩
    obtain ⟨r, hr⟩ := hr
    obtain ⟨out, hout⟩ := ih r.state r.world
    exact ⟨_, by rw [runAll_cons_eq _ _ _ _ _ _ _ hr, hout]; rfl⟩

/-- Unfolding a history that has a result: the first call returned `r`, and
the rest of the history ran from what `r` left. -/
theorem runAll_cons_some {κ σ T : Type} [Inhabited T] {circuit : Circuit κ σ T}
    {failureThreshold : Nat} {c : Call κ} {cs : List (Call κ)} {st st1 : BreakerState} {w w1 : σ}
    {rs : List (RunResult κ σ T)}
    (h : Breaker.runAll circuit failureThreshold (c :: cs) st w = some (rs, st1, w1)) :
    ∃ r rs1, Breaker.Run circuit failureThreshold c.nowGate c.nowDone c.ctx st w = some r ∧
      Breaker.runAll circuit failureThreshold cs r.state r.world = some (rs1, st1, w1) ∧
      rs = r :: rs1 := by
  rcases Run_eq_rejected_or_delegate circuit failureThreshold c.nowGate c.nowDone c.ctx st w
    with hr | hr
  all_goals
    rw [runAll_cons_eq _ _ _ _ _ _ _ hr] at h
    obtain ⟨out, hout⟩ := runAll_total circuit failureThreshold cs _ _
    rw [hout] at h
    simp only [Option.map_some', Option.some.injEq, Prod.mk.injEq] at h
    refine ⟨_, out.1, hr, ?_, h.1.symm⟩
    rw [hout, ← h.2.1, ← h.2.2]

theorem delegatedCount_cons {κ σ T : Type} (r : RunResult κ σ T) (rs : List (RunResult κ σ T)) :
    delegatedCount (r :: rs)
      = (if r.shortCircuited then 0 else 1) + delegatedCount rs := by
  unfold delegatedCount
  cases h : r.shortCircuited
  · simp [List.filter, h]; omega
  · simp [List.filter, h]

/-- In a history whose delegated calls all fail, the counter at the end is the
counter at the start plus the number of delegated calls, in 64-bit wrapping
arithmetic; the calls that were short-circuited contribute nothing. -/
theorem runAll_counts_failures {κ σ T : Type} [Inhabited T] (circuit : Circuit κ σ T)
    (failureThreshold : Nat) (calls : List (Call κ)) (st st1 : BreakerState) (w w1 : σ)
    (rs : List (RunResult κ σ T))
    (hlo : -9223372036854775808 ≤ st.consecutiveFailures)
    (hhi : st.consecutiveFailures < 9223372036854775808)
    (h : Breaker.runAll circuit failureThreshold calls st w = some (rs, st1, w1))
    (hfail : ∀ r ∈ rs, r.shortCircuited = false → r.err ≠ none) :
    st1.consecutiveFailures = wrapInt64 (st.consecutiveFailures + delegatedCount rs) := by
  induction calls generalizing st w rs with
  | nil =>
    simp only [Breaker.runAll, Option.some.injEq, Prod.mk.injEq] at h
    obtain ⟨h1, h2, _⟩ := h
    subst h1 h2
    simp only [delegatedCount, List.filter_nil, List.length_nil, Nat.cast_zero, add_zero]
    exact (wrapInt64_of_range hlo hhi).symm
  | cons c cs ih =>
    obtain ⟨r, rs1, hr, hrest, hrs⟩ := runAll_cons_some h
    subst hrs
    have hfail1 : ∀ r1 ∈ rs1, r1.shortCircuited = false → r1.err ≠ none :=
      fun r1 hr1 => hfail r1 (List.mem_cons_of_mem _ hr1)
    cases hsc : r.shortCircuited with
    | true =>
      have hrej := Run_shortCircuited hr hsc
      have hst : r.state = st := by rw [hrej]; rfl
      have := ih r.state r.world rs1 (by rw [hst]; exact hlo) (by rw [hst]; exact hhi)
        hrest hfail1
      rw [this, hst, delegatedCount_cons, hsc]
      simp
    | false =>
      have hdel := Run_delegated hr hsc
      have herr : (circuit.Run c.ctx w).1.2 ≠ none := by
        have := hfail r (List.mem_cons_self _ _) hsc
        rw [hdel] at this
        have hp := delegate_pair circuit c.nowDone c.ctx st w [.rLock]
        rw [← hp]
        exact this
      have hcf : r.state.consecutiveFailures = wrapInt64 (st.consecutiveFailures + 1) := by
        rw [hdel, delegate_failures, if_neg herr]
      have hrange := wrapInt64_range (st.consecutiveFailures + 1)
      have := ih r.state r.world rs1 (by rw [hcf]; exact hrange.1) (by rw [hcf]; exact hrange.2)
        hrest hfail1
      rw [this, hcf, delegatedCount_cons, hsc, wrapInt64_add_wrap]
      congr 1
      push_cast
      ring

theorem wrapInt64_wrap_sub (a b : Int) : wrapInt64 (wrapInt64 a - b) = wrapInt64 (a - b) := by
  simp only [wrapInt64_eq]; omega

/-- C10: for every threshold `N`, start from a counter at 0 and take any
history in which exactly `N + 1` calls were delegated and every delegated call
failed (calls rejected in between change nothing). If the clock has not
passed `lastAttempt + backoff(1)`, the very next call is short-circuited: it
returns the zero value and "service unreachable", and neither the variables
of the breaker nor the world of the wrapped circuit change. The counter in
that state is `N + 1` whenever `N + 1` is an `int`. -/
theorem rejected_after_threshold_plus_one_failures {κ σ T : Type} [Inhabited T]
    (circuit : Circuit κ σ T) (N : Nat) (calls : List (Call κ)) (st0 st : BreakerState)
    (w0 w : σ) (rs : List (RunResult κ σ T)) (nowGate nowDone : Time) (ctx : κ)
    (h0 : st0.consecutiveFailures = 0)
    (hrun : Breaker.runAll circuit N calls st0 w0 = some (rs, st, w))
    (hfail : ∀ r ∈ rs, r.shortCircuited = false → r.err ≠ none)
    (hcount : delegatedCount rs = N + 1)
    (hclock : nowGate.ns ≤ st.lastAttempt.ns + specBackoff 1) :
    Breaker.Run circuit N nowGate nowDone ctx st w = some (Breaker.rejected st w) ∧
    (Breaker.rejected st w : RunResult κ σ T).shortCircuited = true ∧
    (Breaker.rejected st w : RunResult κ σ T).calls = [] ∧
    ((N : Int) + 1 < 2 ^ 63 → st.consecutiveFailures = N + 1) := by
  have hcf := runAll_counts_failures circuit N calls st0 st w0 w rs
    (by rw [h0]; norm_num) (by rw [h0]; norm_num) hrun hfail
  rw [h0, hcount, zero_add] at hcf
  have hd : wrapInt64 (st.consecutiveFailures - intOfUint N) = 1 := by
    rw [hcf, intOfUint, wrapInt64_sub_wrap, wrapInt64_wrap_sub]
    push_cast
    rw [show ((N : Int) + 1 - N) = 1 by ring]
    decide
  refine ⟨?_, rejected_shortCircuited st w, by simp [RunResult.calls, Breaker.rejected], ?_⟩
  · rcases Run_cases circuit N nowGate nowDone ctx st w with ⟨b, _, _, _, hrun1⟩ | ⟨hopen, _⟩
    · exact hrun1
    · rw [hd] at hopen
      rcases hopen with hneg | ⟨b, hb, hlt⟩
      · omega
      · have h4 : shlInt64 2 1 = some 4 := by decide
        rw [h4] at hb
        have hb2 := (Option.some.inj hb).symm
        subst hb2
        have h41 : specBackoff 1 = 4 := by decide
        rw [h41] at hclock
        omega
  · intro hN
    rw [hcf]
    push_cast
    apply wrapInt64_of_range
    · omega
    · norm_num at hN; omega

/-- C10 at `N = 1`: a fresh breaker built at instant 0 around a circuit that
always fails; the calls at 5 and at 20 are delegated and fail, leaving the
counter at 2 and the last attempt at 30; the call at 34, the boundary
`30 + 4`, is rejected. -/
theorem rejected_after_threshold_plus_one_failures_witness :
    (Breaker.runAll alwaysFails 1 [⟨(), ⟨5⟩, ⟨10⟩⟩, ⟨(), ⟨20⟩, ⟨30⟩⟩] (Breaker.new ⟨0⟩) 0
        = some ([Breaker.delegate alwaysFails ⟨10⟩ () ⟨0, ⟨0⟩⟩ 0 [.rLock],
                 Breaker.delegate alwaysFails ⟨30⟩ () ⟨1, ⟨10⟩⟩ 1 [.rLock]],
                ⟨2, ⟨30⟩⟩, 2) ∧
      delegatedCount [Breaker.delegate alwaysFails ⟨10⟩ () ⟨0, ⟨0⟩⟩ 0 [.rLock],
                 Breaker.delegate alwaysFails ⟨30⟩ () ⟨1, ⟨10⟩⟩ 1 [.rLock]] = 1 + 1 ∧
      (34 : Int) ≤ 30 + specBackoff 1) ∧
    Breaker.Run alwaysFails 1 ⟨34⟩ ⟨35⟩ () ⟨2, ⟨30⟩⟩ 2 = some (Breaker.rejected ⟨2, ⟨30⟩⟩ 2) :=
  ⟨⟨by decide, by decide, by decide⟩,
    (rejected_after_threshold_plus_one_failures alwaysFails 1
      [⟨(), ⟨5⟩, ⟨10⟩⟩, ⟨(), ⟨20⟩, ⟨30⟩⟩] (Breaker.new ⟨0⟩) ⟨2, ⟨30⟩⟩ 0 2
      [Breaker.delegate alwaysFails ⟨10⟩ () ⟨0, ⟨0⟩⟩ 0 [.rLock],
        Breaker.delegate alwaysFails ⟨30⟩ () ⟨1, ⟨10⟩⟩ 1 [.rLock]] ⟨34⟩ ⟨35⟩ ()
      rfl (by decide) (by decide) (by decide) (by decide)).1⟩

/-! ## Below the threshold -/

/-- Below the threshold the closure always delegates, whatever the clock
reads, as long as the threshold is at most `2^63` above the counter (so for
every threshold up to `2^63`). -/
theorem below_threshold_delegates {κ σ T : Type} [Inhabited T] (circuit : Circuit κ σ T)
    (N : Nat) (nowGate nowDone : Time) (ctx : κ) (st : BreakerState) (w : σ)
    (hlt : st.consecutiveFailures < N) (hN : (N : Int) ≤ st.consecutiveFailures + 2 ^ 63) :
    Breaker.Run circuit N nowGate nowDone ctx st w
      = some (Breaker.delegate circuit nowDone ctx st w [.rLock]) := by
  have hd : wrapInt64 (st.consecutiveFailures - intOfUint N) < 0 := by
    rw [intOfUint, wrapInt64_sub_wrap, wrapInt64_of_range] <;> norm_num at hN <;> omega
  rcases Run_cases circuit N nowGate nowDone ctx st w with ⟨b, h0, _, _, _⟩ | ⟨_, hrun⟩
  · omega
  · exact hrun

/-- The example of C8 with a threshold in range: threshold 5, a circuit that
fails once and then succeeds, a fresh breaker built at instant 0. Both calls
are delegated, and the second leaves the counter at 0. -/
theorem fails_once_below_threshold_five :
    Breaker.runAll failsOnce 5 [⟨(), ⟨0⟩, ⟨1⟩⟩, ⟨(), ⟨1⟩, ⟨2⟩⟩] (Breaker.new ⟨0⟩) 0
      = some ([{ res := 0, err := some (errorsNew "downstream failed"), state := ⟨1, ⟨1⟩⟩,
                 world := 1, trace := [.rLock, .rUnlock, .call (), .lock, .unlock] },
               { res := 42, err := none, state := ⟨0, ⟨2⟩⟩,
                 world := 2, trace := [.rLock, .rUnlock, .call (), .lock, .unlock] }],
              ⟨0, ⟨2⟩⟩, 2) := by
  decide

/-- C8 fails on the code for thresholds above `2^63`: with threshold
18446744073709551576 (`2^64 - 40`) and a circuit that fails once and then
succeeds, the first call, made an hour after construction, is delegated and
fails; the counter is 1, far below the threshold, and the second call, made a
second later, is rejected: the circuit has still been invoked once and the
counter stays at 1. -/
theorem huge_threshold_rejects_below_threshold :
    Breaker.runAll failsOnce 18446744073709551576
        [⟨(), ⟨3600000000000⟩, ⟨3600000001000⟩⟩, ⟨(), ⟨3601000000000⟩, ⟨3601000001000⟩⟩]
        (Breaker.new ⟨0⟩) 0
      = some ([{ res := 0, err := some (errorsNew "downstream failed"),
                 state := ⟨1, ⟨3600000001000⟩⟩, world := 1,
                 trace := [.rLock, .rUnlock, .call (), .lock, .unlock] },
               { res := 0, err := some (errorsNew "service unreachable"),
                 state := ⟨1, ⟨3600000001000⟩⟩, world := 1,
                 trace := [.rLock, .rUnlock] }],
              ⟨1, ⟨3600000001000⟩⟩, 1) ∧
    (1 : Int) < 18446744073709551576 := by
  decide

/-- For a threshold from 1 to `2^63`: a delegated call that succeeds leaves
the counter at 0, and the call after it is delegated whatever the clock reads. -/
theorem success_resets_and_reopens {κ σ T : Type} [Inhabited T] (circuit : Circuit κ σ T)
    (failureThreshold : Nat) (nowGate nowDone : Time) (ctx : κ) (st : BreakerState) (w : σ)
    (r : RunResult κ σ T)
    (hpos : 0 < failureThreshold) (hle : failureThreshold ≤ 2 ^ 63)
    (h : Breaker.Run circuit failureThreshold nowGate nowDone ctx st w = some r)
    (hd : r.shortCircuited = false) (hok : r.err = none) :
    r.state.consecutiveFailures = 0 ∧
    ∀ (nowGate2 nowDone2 : Time) (ctx2 : κ),
      Breaker.Run circuit failureThreshold nowGate2 nowDone2 ctx2 r.state r.world
        = some (Breaker.delegate circuit nowDone2 ctx2 r.state r.world [.rLock]) := by
  have hr := Run_delegated h hd
  have hnone : (circuit.Run ctx w).1.2 = none := by
    have hp := delegate_pair circuit nowDone ctx st w [.rLock]
    rw [← hr, hok] at hp
    rw [← hp]
  have hcf : r.state.consecutiveFailures = 0 := by
    rw [hr, delegate_failures, if_pos hnone]
  refine ⟨hcf, fun nowGate2 nowDone2 ctx2 => ?_⟩
  apply below_threshold_delegates
  · rw [hcf]; exact_mod_cast hpos
  · rw [hcf, zero_add]; exact_mod_cast hle

/-- A threshold in range, at threshold 1 with 7 failures on record and the
cooldown long over: the success resets the counter and the next call, made at
the very instant the success was recorded, is delegated. -/
theorem success_resets_and_reopens_witness :
    (Breaker.Run alwaysSucceeds 1 ⟨1000⟩ ⟨1001⟩ () ⟨7, ⟨0⟩⟩ 7
        = some (Breaker.delegate alwaysSucceeds ⟨1001⟩ () ⟨7, ⟨0⟩⟩ 7 [.rLock])) ∧
    (Breaker.delegate alwaysSucceeds ⟨1001⟩ () ⟨7, ⟨0⟩⟩ 7 [.rLock]).state.consecutiveFailures = 0 ∧
    Breaker.Run alwaysSucceeds 1 ⟨1001⟩ ⟨1002⟩ ()
        (Breaker.delegate alwaysSucceeds ⟨1001⟩ () ⟨7, ⟨0⟩⟩ 7 [.rLock]).state
        (Breaker.delegate alwaysSucceeds ⟨1001⟩ () ⟨7, ⟨0⟩⟩ 7 [.rLock]).world
      = some (Breaker.delegate alwaysSucceeds ⟨1002⟩ ()
          (Breaker.delegate alwaysSucceeds ⟨1001⟩ () ⟨7, ⟨0⟩⟩ 7 [.rLock]).state
          (Breaker.delegate alwaysSucceeds ⟨1001⟩ () ⟨7, ⟨0⟩⟩ 7 [.rLock]).world [.rLock]) :=
  have key := success_resets_and_reopens alwaysSucceeds 1 ⟨1000⟩ ⟨1001⟩ () ⟨7, ⟨0⟩⟩ 7
    (Breaker.delegate alwaysSucceeds ⟨1001⟩ () ⟨7, ⟨0⟩⟩ 7 [.rLock])
    (by decide) (by decide) (by decide) (by decide) (by decide)
  ⟨by decide, key.1, key.2 ⟨1001⟩ ⟨1002⟩ ()⟩

/-- C6 fails on the code for thresholds above `2^63`: with threshold
18446744073709551576 (`2^64 - 40`) the first call, made an hour after
construction, is delegated and succeeds, leaving the counter at 0; the next
call, made a second later, is rejected without invoking the circuit. -/
theorem huge_threshold_rejects_after_success :
    Breaker.runAll alwaysSucceeds 18446744073709551576
        [⟨(), ⟨3600000000000⟩, ⟨3600000001000⟩⟩, ⟨(), ⟨3601000000000⟩, ⟨3601000001000⟩⟩]
        (Breaker.new ⟨0⟩) 0
      = some ([{ res := 42, err := none,
                 state := ⟨0, ⟨3600000001000⟩⟩, world := 1,
                 trace := [.rLock, .rUnlock, .call (), .lock, .unlock] },
               { res := 0, err := some (errorsNew "service unreachable"),
                 state := ⟨0, ⟨3600000001000⟩⟩, world := 1,
                 trace := [.rLock, .rUnlock] }],
              ⟨0, ⟨3600000001000⟩⟩, 1) := by
  decide

/-! ## A circuit that always fails -/

theorem invocations_cons {κ σ T : Type} (r : RunResult κ σ T) (rs : List (RunResult κ σ T)) :
    invocations (r :: rs) = r.calls.length + invocations rs := by
  simp [invocations]

/-- While the counter stays below a threshold under `2^63`, every call on a
circuit that always fails is delegated and adds one to the counter. -/
theorem runAll_failing_below_threshold {κ σ T : Type} [Inhabited T] (circuit : Circuit κ σ T)
    (N : Nat) (hN : N < 2 ^ 63) (hfails : ∀ ctx w, (circuit.Run ctx w).1.2 ≠ none)
    (calls : List (Call κ)) (st : BreakerState) (w : σ)
    (h0 : 0 ≤ st.consecutiveFailures)
    (hroom : st.consecutiveFailures + calls.length ≤ N) :
    ∃ rs st1 w1, Breaker.runAll circuit N calls st w = some (rs, st1, w1) ∧
      (∀ r ∈ rs, r.shortCircuited = false) ∧
      st1.consecutiveFailures = st.consecutiveFailures + calls.length ∧
      invocations rs = calls.length := by
  have hN2 : (N : Int) < 9223372036854775808 := by
    have : N < 9223372036854775808 := by norm_num at hN; exact hN
    exact_mod_cast this
  induction calls generalizing st w with
  | nil => exact ⟨[], st, w, rfl, by simp, by simp, rfl⟩
  | cons c cs ih =>
    simp only [List.length_cons, Nat.cast_add, Nat.cast_one] at hroom
    have hrun := below_threshold_delegates circuit N c.nowGate c.nowDone c.ctx st w
      (by omega) (by norm_num; omega)
    have hcf : (Breaker.delegate circuit c.nowDone c.ctx st w [.rLock]).state.consecutiveFailures
        = st.consecutiveFailures + 1 := by
      rw [delegate_failures, if_neg (hfails _ _)]
      apply wrapInt64_of_range <;> omega
    obtain ⟨rs, st1, w1, hrest, hall, hst1, hinv⟩ :=
      ih (Breaker.delegate circuit c.nowDone c.ctx st w [.rLock]).state
        (Breaker.delegate circuit c.nowDone c.ctx st w [.rLock]).world
        (by rw [hcf]; omega) (by rw [hcf]; omega)
    refine ⟨Breaker.delegate circuit c.nowDone c.ctx st w [.rLock] :: rs, st1, w1, ?_, ?_, ?_, ?_⟩
    · rw [runAll_cons_eq _ _ _ _ _ _ _ hrun, hrest]; rfl
    · intro r hr
      rcases List.mem_cons.mp hr with h1 | h1
      · rw [h1]; exact delegate_not_shortCircuited _ _ _ _ _
      · exact hall r h1
    · rw [hst1, hcf]; simp only [List.length_cons, Nat.cast_add, Nat.cast_one]; ring
    · rw [invocations_cons, hinv, delegate_calls]; simp only [List.length_cons, List.length_nil]
      omega

/-- C9 for thresholds in range: for every `N` below `2^63`, on a fresh
breaker around a circuit that always fails, each of the first `N` calls is
delegated whatever the clock reads, after them the counter is `N` and the
circuit has been invoked `N` times, and a further call whose gate reading has
not passed `lastAttempt + backoff(0)` is rejected, leaving the world of the
circuit as it is. -/
theorem threshold_failures_then_rejected {κ σ T : Type} [Inhabited T] (circuit : Circuit κ σ T)
    (N : Nat) (hN : N < 2 ^ 63)
    (hfails : ∀ ctx w, (circuit.Run ctx w).1.2 ≠ none)
    (t0 : Time) (calls : List (Call κ)) (hlen : calls.length = N) (w0 : σ) :
    ∃ rs st w, Breaker.runAll circuit N calls (Breaker.new t0) w0 = some (rs, st, w) ∧
      (∀ r ∈ rs, r.shortCircuited = false) ∧
      st.consecutiveFailures = N ∧
      invocations rs = N ∧
      ∀ (nowGate nowDone : Time) (ctx : κ),
        nowGate.ns ≤ st.lastAttempt.ns + specBackoff 0 →
        Breaker.Run circuit N nowGate nowDone ctx st w = some (Breaker.rejected st w) := by
  obtain ⟨rs, st, w, hrun, hall, hcf, hinv⟩ :=
    runAll_failing_below_threshold circuit N hN hfails calls (Breaker.new t0) w0
      (by simp [Breaker.new]) (by simp [Breaker.new, hlen])
  have hcf2 : st.consecutiveFailures = N := by
    rw [hcf, hlen]; simp [Breaker.new]
  refine ⟨rs, st, w, hrun, hall, hcf2, by rw [hinv, hlen], ?_⟩
  intro nowGate nowDone ctx hclock
  have hd : wrapInt64 (st.consecutiveFailures - intOfUint N) = 0 := by
    rw [hcf2, intOfUint_of_lt hN, sub_self]; decide
  rcases Run_cases circuit N nowGate nowDone ctx st w with ⟨b, _, _, _, hrun1⟩ | ⟨hopen, _⟩
  · exact hrun1
  · rw [hd] at hopen
    rcases hopen with hneg | ⟨b, hb, hlt⟩
    · omega
    · have h2 : shlInt64 2 0 = some 2 := by decide
      rw [h2] at hb
      have hb2 := (Option.some.inj hb).symm
      subst hb2
      have h20 : specBackoff 0 = 2 := by decide
      rw [h20] at hclock
      omega

/-- The scenario of the specification, threshold 2: calls 1 and 2 fail and are
delegated, call 3 is made at the boundary `lastAttempt + 2` and is rejected;
the stub has been invoked twice. -/
theorem threshold_failures_then_rejected_witness :
    Breaker.runAll alwaysFails 2
        [⟨(), ⟨0⟩, ⟨1⟩⟩, ⟨(), ⟨1⟩, ⟨2⟩⟩, ⟨(), ⟨4⟩, ⟨5⟩⟩] (Breaker.new ⟨0⟩) 0
      = some ([{ res := 0, err := some (errorsNew "downstream failed"), state := ⟨1, ⟨1⟩⟩,
                 world := 1, trace := [.rLock, .rUnlock, .call (), .lock, .unlock] },
               { res := 0, err := some (errorsNew "downstream failed"), state := ⟨2, ⟨2⟩⟩,
                 world := 2, trace := [.rLock, .rUnlock, .call (), .lock, .unlock] },
               { res := 0, err := some (errorsNew "service unreachable"), state := ⟨2, ⟨2⟩⟩,
                 world := 2, trace := [.rLock, .rUnlock] }],
              ⟨2, ⟨2⟩⟩, 2) ∧
    ∃ rs st w, Breaker.runAll alwaysFails 2 [⟨(), ⟨0⟩, ⟨1⟩⟩, ⟨(), ⟨1⟩, ⟨2⟩⟩] (Breaker.new ⟨0⟩) 0
        = some (rs, st, w) ∧
      (∀ r ∈ rs, r.shortCircuited = false) ∧
      st.consecutiveFailures = (2 : Nat) ∧
      invocations rs = 2 ∧
      ∀ (nowGate nowDone : Time) (ctx : Unit),
        nowGate.ns ≤ st.lastAttempt.ns + specBackoff 0 →
        Breaker.Run alwaysFails 2 nowGate nowDone ctx st w = some (Breaker.rejected st w) :=
  ⟨by decide,
    threshold_failures_then_rejected alwaysFails 2 (by decide)
      (fun _ _ => by simp [alwaysFails]) ⟨0⟩ [⟨(), ⟨0⟩, ⟨1⟩⟩, ⟨(), ⟨1⟩, ⟨2⟩⟩] rfl 0⟩

/-- C9 fails on the code for thresholds above `2^63`: on a fresh breaker with
threshold 18446744073709551576 (`2^64 - 40`) around a circuit that always
fails, the first call, made one second after construction, is rejected: the
circuit is not invoked and the counter stays at 0. -/
theorem huge_threshold_rejects_first_call :
    Breaker.runAll alwaysFails 18446744073709551576
        [⟨(), ⟨1000000000⟩, ⟨1000001000⟩⟩] (Breaker.new ⟨0⟩) 0
      = some ([{ res := 0, err := some (errorsNew "service unreachable"),
                 state := ⟨0, ⟨0⟩⟩, world := 0, trace := [.rLock, .rUnlock] }],
              ⟨0, ⟨0⟩⟩, 0) ∧
    invocations
      [({ res := 0, err := some (errorsNew "service unreachable"),
          state := ⟨0, ⟨0⟩⟩, world := 0, trace := [.rLock, .rUnlock] } : RunResult Unit Nat Nat)]
      = 0 := by
  decide

/-! ## Threshold 0 -/

/-- C7, as stated, fails: a fresh breaker with threshold 0 built at instant 0
around a circuit that always succeeds rejects a first call made 2 ns later.
No failure has occurred, the circuit is not invoked. -/
theorem threshold_zero_rejects_before_any_failure :
    Breaker.runAll alwaysSucceeds 0 [⟨(), ⟨2⟩, ⟨3⟩⟩] (Breaker.new ⟨0⟩) 0
      = some ([{ res := 0, err := some (errorsNew "service unreachable"),
                 state := ⟨0, ⟨0⟩⟩, world := 0, trace := [.rLock, .rUnlock] }],
              ⟨0, ⟨0⟩⟩, 0) := by
  decide

/-- With threshold 0 and the counter at 0 the closure computes `d = 0` and a
cooldown of 2 ns: a call is delegated exactly when its gate reading is later
than `lastAttempt + 2`. -/
theorem threshold_zero_gate {κ σ T : Type} [Inhabited T] (circuit : Circuit κ σ T)
    (nowGate nowDone : Time) (ctx : κ) (st : BreakerState) (w : σ)
    (h0 : st.consecutiveFailures = 0) :
    Breaker.Run circuit 0 nowGate nowDone ctx st w
      = if st.lastAttempt.ns + 2 < nowGate.ns
        then some (Breaker.delegate circuit nowDone ctx st w [.rLock])
        else some (Breaker.rejected st w) := by
  have hd : wrapInt64 (st.consecutiveFailures - intOfUint 0) = 0 := by
    rw [h0]; decide
  have h2 : shlInt64 2 0 = some 2 := by decide
  rcases Run_cases circuit 0 nowGate nowDone ctx st w with
    ⟨b, _, hb, hle, hrun⟩ | ⟨hopen, hrun⟩
  · rw [hd, h2] at hb
    have hb2 := (Option.some.inj hb).symm
    subst hb2
    rw [hrun, if_neg (by omega)]
  · rw [hd] at hopen
    rcases hopen with hneg | ⟨b, hb, hlt⟩
    · omega
    · rw [h2] at hb
      have hb2 := (Option.some.inj hb).symm
      subst hb2
      rw [hrun, if_pos hlt]

theorem runAll_threshold_zero_succeeding {κ σ T : Type} [Inhabited T] (circuit : Circuit κ σ T)
    (hok : ∀ ctx w, (circuit.Run ctx w).1.2 = none)
    (calls : List (Call κ)) (st : BreakerState) (w : σ)
    (h0 : st.consecutiveFailures = 0)
    (hspaced : spacedBeyondCooldown st.lastAttempt calls = true) :
    ∃ rs st1 w1, Breaker.runAll circuit 0 calls st w = some (rs, st1, w1) ∧
      rs.length = calls.length ∧
      ∀ r ∈ rs, r.shortCircuited = false ∧ r.err = none ∧ r.state.consecutiveFailures = 0 := by
  induction calls generalizing st w with
  | nil => exact ⟨[], st, w, rfl, rfl, by simp⟩
  | cons c cs ih =>
    simp only [spacedBeyondCooldown, Bool.and_eq_true, decide_eq_true_eq] at hspaced
    have h20 : specBackoff 0 = 2 := by decide
    rw [h20] at hspaced
    have hrun := threshold_zero_gate circuit c.nowGate c.nowDone c.ctx st w h0
    rw [if_pos hspaced.1] at hrun
    have hcf : (Breaker.delegate circuit c.nowDone c.ctx st w [.rLock]).state.consecutiveFailures
        = 0 := by
      rw [delegate_failures, if_pos (hok _ _)]
    have herr : (Breaker.delegate circuit c.nowDone c.ctx st w [.rLock]).err = none := by
      have hp := delegate_pair circuit c.nowDone c.ctx st w [.rLock]
      have := congrArg Prod.snd hp
      simp only at this
      rw [this]; exact hok _ _
    obtain ⟨rs, st1, w1, hrest, hlen, hall⟩ :=
      ih (Breaker.delegate circuit c.nowDone c.ctx st w [.rLock]).state
        (Breaker.delegate circuit c.nowDone c.ctx st w [.rLock]).world hcf
        (by rw [delegate_lastAttempt]; exact hspaced.2)
    refine ⟨Breaker.delegate circuit c.nowDone c.ctx st w [.rLock] :: rs, st1, w1, ?_, ?_, ?_⟩
    · rw [runAll_cons_eq _ _ _ _ _ _ _ hrun, hrest]; rfl
    · simp [hlen]
    · intro r hr
      rcases List.mem_cons.mp hr with h1 | h1
      · rw [h1]; exact ⟨delegate_not_shortCircuited _ _ _ _ _, herr, hcf⟩
      · exact hall r h1

/-- C7, amended: for threshold 0 and a wrapped circuit that always succeeds,
for every sequence of calls on a fresh breaker in which every gate reading is
more than `backoff(0)` = 2 ns after the last attempt (the construction for
the first call, the completion of the previous call after that), every call
is delegated and succeeds, the counter is 0 after every call and no call is
short-circuited. -/
theorem threshold_zero_always_succeeding {κ σ T : Type} [Inhabited T] (circuit : Circuit κ σ T)
    (hok : ∀ ctx w, (circuit.Run ctx w).1.2 = none)
    (t0 : Time) (calls : List (Call κ)) (w0 : σ)
    (hspaced : spacedBeyondCooldown t0 calls = true) :
    ∃ rs st w, Breaker.runAll circuit 0 calls (Breaker.new t0) w0 = some (rs, st, w) ∧
      rs.length = calls.length ∧
      ∀ r ∈ rs, r.shortCircuited = false ∧ r.err = none ∧ r.state.consecutiveFailures = 0 :=
  runAll_threshold_zero_succeeding circuit hok calls (Breaker.new t0) w0 rfl hspaced

/-- C7 amended, on a breaker built at instant 0 and called at 3, 8 and 20. -/
theorem threshold_zero_always_succeeding_witness :
    spacedBeyondCooldown ⟨0⟩
        [(⟨(), ⟨3⟩, ⟨5⟩⟩ : Call Unit), ⟨(), ⟨8⟩, ⟨9⟩⟩, ⟨(), ⟨20⟩, ⟨21⟩⟩] = true ∧
    ∃ rs st w, Breaker.runAll alwaysSucceeds 0
          [⟨(), ⟨3⟩, ⟨5⟩⟩, ⟨(), ⟨8⟩, ⟨9⟩⟩, ⟨(), ⟨20⟩, ⟨21⟩⟩] (Breaker.new ⟨0⟩) 0
        = some (rs, st, w) ∧
      rs.length = 3 ∧
      ∀ r ∈ rs, r.shortCircuited = false ∧ r.err = none ∧ r.state.consecutiveFailures = 0 :=
  ⟨by decide,
    threshold_zero_always_succeeding alwaysSucceeds (fun _ _ => rfl) ⟨0⟩
      [⟨(), ⟨3⟩, ⟨5⟩⟩, ⟨(), ⟨8⟩, ⟨9⟩⟩, ⟨(), ⟨20⟩, ⟨21⟩⟩] 0 (by decide)⟩

/-! ## The probe after the cooldown -/

theorem wrapInt64_le_self {x : Int} (h : 0 ≤ x) : wrapInt64 x ≤ x := by
  rw [wrapInt64_eq]; omega

/-- The cooldown the closure computes never exceeds the cooldown of the
specification for the same `d`. -/
theorem shlInt64_two_le_specBackoff (d : Int) (h0 : 0 ≤ d) :
    ∃ b, shlInt64 2 d = some b ∧ b ≤ specBackoff d := by
  refine ⟨_, shlInt64_eq_wrap 2 d h0, ?_⟩
  have e : (2 : Int) * 2 ^ d.toNat = specBackoff d := by
    unfold specBackoff; ring
  rw [e]
  apply wrapInt64_le_self
  unfold specBackoff
  positivity

/-- A history of rejected calls leaves the captured variables and the world
of the wrapped circuit as they were. -/
theorem runAll_all_shortCircuited {κ σ T : Type} [Inhabited T] (circuit : Circuit κ σ T)
    (failureThreshold : Nat) (calls : List (Call κ)) (st st1 : BreakerState) (w w1 : σ)
    (rs : List (RunResult κ σ T))
    (h : Breaker.runAll circuit failureThreshold calls st w = some (rs, st1, w1))
    (hall : ∀ r ∈ rs, r.shortCircuited = true) :
    st1 = st ∧ w1 = w := by
  induction calls generalizing st w rs with
  | nil =>
    simp only [Breaker.runAll, Option.some.injEq, Prod.mk.injEq] at h
    exact ⟨h.2.1.symm, h.2.2.symm⟩
  | cons c cs ih =>
    obtain ⟨r, rs1, hr, hrest, hrs⟩ := runAll_cons_some h
    subst hrs
    have hrej := Run_shortCircuited hr (hall r (List.mem_cons_self _ _))
    have hst : r.state = st := by rw [hrej]; rfl
    have hw : r.world = w := by rw [hrej]; rfl
    rw [hst, hw] at hrest
    exact ih st w rs1 hrest (fun r1 hr1 => hall r1 (List.mem_cons_of_mem _ hr1))

/-- The probe, measured with the difference the gate computes: take any state
in which a call is short-circuited, followed by any number of further
short-circuited calls and no delegated call. A call made after that at any
clock reading strictly after `lastAttempt + backoff(d)`, `d` being the wrapped
difference of line 27, is delegated to the wrapped circuit, which is invoked
once with the context of the caller, although `d >= 0` still holds. For a
threshold below `2^63` and a counter that is a non-negative `int`, `d` is
`consecutiveFailures - failureThreshold` and the counter is at or above the
threshold. -/
theorem probe_after_cooldown {κ σ T : Type} [Inhabited T] (circuit : Circuit κ σ T)
    (failureThreshold : Nat) (calls : List (Call κ)) (st st1 : BreakerState) (w w1 : σ)
    (rs : List (RunResult κ σ T)) (nowGate nowDone : Time) (ctx : κ)
    (hrun : Breaker.runAll circuit failureThreshold calls st w = some (rs, st1, w1))
    (hne : rs ≠ [])
    (hall : ∀ r ∈ rs, r.shortCircuited = true)
    (hclock : st.lastAttempt.ns
      + specBackoff (wrapInt64 (st.consecutiveFailures - intOfUint failureThreshold))
      < nowGate.ns) :
    Breaker.Run circuit failureThreshold nowGate nowDone ctx st1 w1
      = some (Breaker.delegate circuit nowDone ctx st w [.rLock]) ∧
    (Breaker.delegate circuit nowDone ctx st w [.rLock]).calls = [ctx] ∧
    0 ≤ wrapInt64 (st1.consecutiveFailures - intOfUint failureThreshold) ∧
    (failureThreshold < 2 ^ 63 → 0 ≤ st.consecutiveFailures → st.consecutiveFailures < 2 ^ 63 →
      (failureThreshold : Int) ≤ st.consecutiveFailures ∧
      wrapInt64 (st.consecutiveFailures - intOfUint failureThreshold)
        = st.consecutiveFailures - failureThreshold) := by
  obtain ⟨hst, hw⟩ := runAll_all_shortCircuited circuit failureThreshold calls st st1 w w1 rs
    hrun hall
  subst hst hw
  -- the first call of the history was rejected, so the gate was shut in this state
  have hd0 : 0 ≤ wrapInt64 (st1.consecutiveFailures - intOfUint failureThreshold) := by
    cases calls with
    | nil =>
      simp only [Breaker.runAll, Option.some.injEq, Prod.mk.injEq] at hrun
      exact absurd hrun.1.symm hne
    | cons c cs =>
      obtain ⟨r, rs1, hr, _, hrs⟩ := runAll_cons_some hrun
      subst hrs
      have hsc := hall r (List.mem_cons_self _ _)
      rcases Run_cases circuit failureThreshold c.nowGate c.nowDone c.ctx st1 w1 with
        ⟨b, h0, _, _, _⟩ | ⟨_, hdel⟩
      · exact h0
      · rw [hdel] at hr
        have := Option.some.inj hr
        subst this
        rw [delegate_not_shortCircuited] at hsc
        exact absurd hsc (by simp)
  refine ⟨?_, delegate_calls _ _ _ _ _, hd0, ?_⟩
  · obtain ⟨b, hb, hble⟩ := shlInt64_two_le_specBackoff _ hd0
    rcases Run_cases circuit failureThreshold nowGate nowDone ctx st1 w1 with
      ⟨b1, _, hb1, hle, _⟩ | ⟨_, hdel⟩
    · rw [hb] at hb1
      have := Option.some.inj hb1
      subst this
      omega
    · exact hdel
  · intro hthr h0 hcf
    have hthr2 : (failureThreshold : Int) < 9223372036854775808 := by
      have : failureThreshold < 9223372036854775808 := by norm_num at hthr; exact hthr
      exact_mod_cast this
    have hcf2 : st1.consecutiveFailures < 9223372036854775808 := by norm_num at hcf; exact hcf
    have hdv : wrapInt64 (st1.consecutiveFailures - intOfUint failureThreshold)
        = st1.consecutiveFailures - (failureThreshold : Int) := by
      rw [intOfUint_of_lt hthr]
      apply wrapInt64_of_range <;> omega
    rw [hdv] at hd0
    exact ⟨by omega, hdv⟩

/-- The probe at threshold 2 with two failures on record and the last attempt
at instant 100: the calls at 101 and at 102 (the boundary) are rejected, the
call at 103 is a probe and reaches the circuit. -/
theorem probe_after_cooldown_witness :
    (Breaker.runAll alwaysFails 2 [⟨(), ⟨101⟩, ⟨0⟩⟩, ⟨(), ⟨102⟩, ⟨0⟩⟩] ⟨2, ⟨100⟩⟩ 2
        = some ([Breaker.rejected ⟨2, ⟨100⟩⟩ 2, Breaker.rejected ⟨2, ⟨100⟩⟩ 2], ⟨2, ⟨100⟩⟩, 2) ∧
      (100 : Int) + specBackoff (wrapInt64 (2 - intOfUint 2)) < 103) ∧
    Breaker.Run alwaysFails 2 ⟨103⟩ ⟨104⟩ () ⟨2, ⟨100⟩⟩ 2
      = some { res := 0, err := some (errorsNew "downstream failed"), state := ⟨3, ⟨104⟩⟩,
               world := 3, trace := [.rLock, .rUnlock, .call (), .lock, .unlock] } :=
  ⟨⟨by decide, by decide⟩,
    (probe_after_cooldown alwaysFails 2 [⟨(), ⟨101⟩, ⟨0⟩⟩, ⟨(), ⟨102⟩, ⟨0⟩⟩]
      ⟨2, ⟨100⟩⟩ ⟨2, ⟨100⟩⟩ 2 2 [Breaker.rejected ⟨2, ⟨100⟩⟩ 2, Breaker.rejected ⟨2, ⟨100⟩⟩ 2]
      ⟨103⟩ ⟨104⟩ () (by decide) (by simp) (by decide) (by decide)).1.trans (by decide)⟩

/-- For a threshold below `2^63` and a counter that is a non-negative `int`,
the probe holds with `d = consecutiveFailures - failureThreshold` over the
integers: after a short-circuited call and no delegated call, a call at any
clock reading strictly after `lastAttempt + backoff(d)` is delegated, the
circuit is invoked once with the context of the caller, and the counter is at
or above the threshold. -/
theorem probe_after_cooldown_in_range {κ σ T : Type} [Inhabited T] (circuit : Circuit κ σ T)
    (failureThreshold : Nat) (calls : List (Call κ)) (st st1 : BreakerState) (w w1 : σ)
    (rs : List (RunResult κ σ T)) (nowGate nowDone : Time) (ctx : κ)
    (hthr : failureThreshold < 2 ^ 63)
    (hcf0 : 0 ≤ st.consecutiveFailures) (hcf : st.consecutiveFailures < 2 ^ 63)
    (hrun : Breaker.runAll circuit failureThreshold calls st w = some (rs, st1, w1))
    (hne : rs ≠ [])
    (hall : ∀ r ∈ rs, r.shortCircuited = true)
    (hclock : st.lastAttempt.ns
      + specBackoff (st.consecutiveFailures - (failureThreshold : Int)) < nowGate.ns) :
    Breaker.Run circuit failureThreshold nowGate nowDone ctx st1 w1
      = some (Breaker.delegate circuit nowDone ctx st w [.rLock]) ∧
    (Breaker.delegate circuit nowDone ctx st w [.rLock]).calls = [ctx] ∧
    (failureThreshold : Int) ≤ st1.consecutiveFailures := by
  have hthr2 : (failureThreshold : Int) < 9223372036854775808 := by
    have : failureThreshold < 9223372036854775808 := by norm_num at hthr; exact hthr
    exact_mod_cast this
  have hcf2 : st.consecutiveFailures < 9223372036854775808 := by norm_num at hcf; exact hcf
  have hdv : wrapInt64 (st.consecutiveFailures - intOfUint failureThreshold)
      = st.consecutiveFailures - (failureThreshold : Int) := by
    rw [intOfUint_of_lt hthr]
    apply wrapInt64_of_range <;> omega
  have hsame := runAll_all_shortCircuited circuit failureThreshold calls st st1 w w1 rs
    hrun hall
  have key := probe_after_cooldown circuit failureThreshold calls st st1 w w1 rs
    nowGate nowDone ctx hrun hne hall (by rw [hdv]; exact hclock)
  refine ⟨key.1, key.2.1, ?_⟩
  rw [hsame.1]
  exact (key.2.2.2 hthr hcf0 hcf).1

/-- The probe in range, at threshold 2 with two failures on record and the
last attempt at instant 100: after the rejected call at 102, the call at 103
reaches the circuit, and the counter 2 is at the threshold. -/
theorem probe_after_cooldown_in_range_witness :
    (Breaker.runAll alwaysFails 2 [⟨(), ⟨102⟩, ⟨0⟩⟩] ⟨2, ⟨100⟩⟩ 2
        = some ([Breaker.rejected ⟨2, ⟨100⟩⟩ 2], ⟨2, ⟨100⟩⟩, 2) ∧
      (100 : Int) + specBackoff (2 - ((2 : Nat) : Int)) < 103) ∧
    Breaker.Run alwaysFails 2 ⟨103⟩ ⟨104⟩ () ⟨2, ⟨100⟩⟩ 2
      = some (Breaker.delegate alwaysFails ⟨104⟩ () ⟨2, ⟨100⟩⟩ 2 [.rLock]) :=
  ⟨⟨by decide, by decide⟩,
    (probe_after_cooldown_in_range alwaysFails 2 [⟨(), ⟨102⟩, ⟨0⟩⟩]
      ⟨2, ⟨100⟩⟩ ⟨2, ⟨100⟩⟩ 2 2 [Breaker.rejected ⟨2, ⟨100⟩⟩ 2]
      ⟨103⟩ ⟨104⟩ () (by decide) (by decide) (by decide) (by decide) (by simp) (by decide)
      (by decide)).1⟩

/-- C11 fails on the code for thresholds above `2^63`: on a fresh breaker with
threshold 18446744073709551576 (`2^64 - 40`) built at instant 0, the call made
one second after construction is short-circuited, with the counter at 0 and
so below the threshold. With `d = consecutiveFailures - failureThreshold` the
cooldown instant `lastAttempt + backoff(d)` is 2 ns after construction; the
later call at two seconds, with no delegated call in between, is still
rejected and the circuit is never invoked. -/
theorem huge_threshold_rejects_probe :
    Breaker.runAll alwaysSucceeds 18446744073709551576
        [⟨(), ⟨1000000000⟩, ⟨1000001000⟩⟩, ⟨(), ⟨2000000000⟩, ⟨2000001000⟩⟩]
        (Breaker.new ⟨0⟩) 0
      = some ([{ res := 0, err := some (errorsNew "service unreachable"),
                 state := ⟨0, ⟨0⟩⟩, world := 0, trace := [.rLock, .rUnlock] },
               { res := 0, err := some (errorsNew "service unreachable"),
                 state := ⟨0, ⟨0⟩⟩, world := 0, trace := [.rLock, .rUnlock] }],
              ⟨0, ⟨0⟩⟩, 0) ∧
    (Breaker.new ⟨0⟩).lastAttempt.ns
        + specBackoff ((Breaker.new ⟨0⟩).consecutiveFailures
            - ((18446744073709551576 : Nat) : Int)) = 2 ∧
    (2 : Int) < 2000000000 ∧
    (Breaker.new ⟨0⟩).consecutiveFailures < ((18446744073709551576 : Nat) : Int) := by
  decide

/-! ## The cooldown as a number -/

/-- C12 fails on the code from `d = 62` on. With threshold 0 and 62 failures
on record the closure adds `2 << 62`, which is -9223372036854775808 as an
`int64` and not `2^63`; with 63 failures it adds 0 and not `2^64`. In the
first state a call made 1 ns after the last attempt, which the specification
keeps out for `2^63` ns, reaches the circuit. -/
theorem shift_overflows_from_sixty_two :
    (shlInt64 2 (wrapInt64 (62 - intOfUint 0)) = some (-9223372036854775808) ∧
      specBackoff 62 = 9223372036854775808) ∧
    (shlInt64 2 (wrapInt64 (63 - intOfUint 0)) = some 0 ∧
      specBackoff 63 = 18446744073709551616) ∧
    Breaker.Run alwaysFails 0 ⟨1⟩ ⟨2⟩ () ⟨62, ⟨0⟩⟩ 62
      = some { res := 0, err := some (errorsNew "downstream failed"), state := ⟨63, ⟨2⟩⟩,
               world := 63, trace := [.rLock, .rUnlock, .call (), .lock, .unlock] } := by
  decide

/-- For `d` from 0 to 61 the cooldown the closure adds is `2^(d+1)` ns, the
cooldown of the specification. -/
theorem cooldown_matches_spec_in_range (failureThreshold : Nat) (st : BreakerState)
    (hthr : failureThreshold < 2 ^ 63)
    (hlo : (failureThreshold : Int) ≤ st.consecutiveFailures)
    (hhi : st.consecutiveFailures ≤ failureThreshold + 61) :
    shlInt64 2 (wrapInt64 (st.consecutiveFailures - intOfUint failureThreshold))
      = some (specBackoff (st.consecutiveFailures - failureThreshold)) := by
  have hthr2 : (failureThreshold : Int) < 9223372036854775808 := by
    have : failureThreshold < 9223372036854775808 := by norm_num at hthr; exact hthr
    exact_mod_cast this
  have hdv : wrapInt64 (st.consecutiveFailures - intOfUint failureThreshold)
      = st.consecutiveFailures - (failureThreshold : Int) := by
    rw [intOfUint_of_lt hthr]
    apply wrapInt64_of_range <;> omega
  rw [hdv, shlInt64_two_of_le _ (by omega) (by omega)]
  rfl

/-- The cooldown in range, at threshold 3 with 5 failures on record: `2 << 2`
is 8 ns. -/
theorem cooldown_matches_spec_in_range_witness :
    shlInt64 2 (wrapInt64 (5 - intOfUint 3)) = some (specBackoff (5 - (3 : Nat))) ∧
    specBackoff (5 - (3 : Nat)) = 8 :=
  ⟨cooldown_matches_spec_in_range 3 ⟨5, ⟨0⟩⟩ (by decide) (by decide) (by decide), by decide⟩

/-- C13 fails on the code where the shift overflows. With threshold 0, the
cooldown for 62 failures (-9223372036854775808 ns) is shorter than the
cooldown for 61 failures (4611686018427387904 ns), and the cooldowns for 63
and for 64 failures are both 0. -/
theorem cooldown_stops_growing :
    (shlInt64 2 (wrapInt64 (61 - intOfUint 0)) = some 4611686018427387904 ∧
      shlInt64 2 (wrapInt64 (62 - intOfUint 0)) = some (-9223372036854775808) ∧
      ¬ ((4611686018427387904 : Int) < -9223372036854775808)) ∧
    (shlInt64 2 (wrapInt64 (63 - intOfUint 0)) = some 0 ∧
      shlInt64 2 (wrapInt64 (64 - intOfUint 0)) = some 0 ∧
      ¬ ((0 : Int) < 0)) := by
  decide

/-- While the shift does not overflow (at most 61 failures above a threshold
below `2^63`), the cooldown is strictly longer for more failures, and one more
failure doubles it. -/
theorem cooldown_grows_in_range (failureThreshold : Nat) (c1 c2 : Int)
    (hthr : failureThreshold < 2 ^ 63)
    (h1 : (failureThreshold : Int) ≤ c1) (h12 : c1 < c2) (h2 : c2 ≤ failureThreshold + 61) :
    ∃ b1 b2,
      shlInt64 2 (wrapInt64 (c1 - intOfUint failureThreshold)) = some b1 ∧
      shlInt64 2 (wrapInt64 (c2 - intOfUint failureThreshold)) = some b2 ∧
      b1 < b2 ∧ (c2 = c1 + 1 → b2 = 2 * b1) := by
  have e1 := cooldown_matches_spec_in_range failureThreshold ⟨c1, ⟨0⟩⟩ hthr h1 (by
    show c1 ≤ _; omega)
  have e2 := cooldown_matches_spec_in_range failureThreshold ⟨c2, ⟨0⟩⟩ hthr (by
    show _ ≤ c2; omega) h2
  refine ⟨_, _, e1, e2, ?_, ?_⟩
  · unfold specBackoff
    apply pow_lt_pow_right₀ (by norm_num)
    show (c1 - ↑failureThreshold).toNat + 1 < (c2 - ↑failureThreshold).toNat + 1
    omega
  · intro h
    show specBackoff (c2 - ↑failureThreshold) = 2 * specBackoff (c1 - ↑failureThreshold)
    unfold specBackoff
    have : (c2 - (failureThreshold : Int)).toNat = (c1 - (failureThreshold : Int)).toNat + 1 := by
      omega
    rw [this, pow_succ]
    ring

/-- The growth in range, at threshold 2: 2, 4 and 8 ns for 2, 3 and 4 failures. -/
theorem cooldown_grows_in_range_witness :
    ∃ b1 b2,
      shlInt64 2 (wrapInt64 (3 - intOfUint 2)) = some b1 ∧
      shlInt64 2 (wrapInt64 (4 - intOfUint 2)) = some b2 ∧
      b1 < b2 ∧ ((4 : Int) = 3 + 1 → b2 = 2 * b1) :=
  cooldown_grows_in_range 2 3 4 (by decide) (by decide) (by decide) (by decide)

/-! ## Outcomes of one call -/

/-- C14: for every state, threshold, clock reading and circuit, the closure
does not panic. The only operation of the closure that can panic is the shift,
which panics exactly on a negative count, and the closure returns in every
case; what it returns is either the pair of the wrapped circuit or the zero
value with "service unreachable". -/
theorem Run_never_panics {κ σ T : Type} [Inhabited T] (circuit : Circuit κ σ T)
    (failureThreshold : Nat) (nowGate nowDone : Time) (ctx : κ) (st : BreakerState) (w : σ) :
    (∀ d : Int, shlInt64 2 d = none ↔ d < 0) ∧
    (0 ≤ wrapInt64 (st.consecutiveFailures - intOfUint failureThreshold) →
      shlInt64 2 (wrapInt64 (st.consecutiveFailures - intOfUint failureThreshold)) ≠ none) ∧
    ∃ r, Breaker.Run circuit failureThreshold nowGate nowDone ctx st w = some r ∧
      ((r.shortCircuited = false ∧ (r.res, r.err) = (circuit.Run ctx w).1) ∨
        (r.shortCircuited = true ∧ r.res = default ∧
          r.err = some (errorsNew "service unreachable"))) := by
  refine ⟨?_, ?_, ?_⟩
  · intro d
    unfold shlInt64
    constructor
    · intro h
      by_contra hd
      rw [if_neg hd] at h
      split at h <;> exact absurd h (by simp)
    · intro hd
      rw [if_pos hd]
  · intro h0
    rw [shlInt64_eq_wrap 2 _ h0]
    simp
  · rcases Run_eq_rejected_or_delegate circuit failureThreshold nowGate nowDone ctx st w
      with h | h
    · exact ⟨_, h, Or.inr ⟨rejected_shortCircuited st w, rfl, rfl⟩⟩
    · exact ⟨_, h, Or.inl ⟨delegate_not_shortCircuited _ _ _ _ _, delegate_pair _ _ _ _ _ _⟩⟩

/-! ## The functional adapter -/

/-- C15: for every function `f` and every context, `CircuitFunc(f).Run(ctx)`
is `f(ctx)`: the same result and error, and the effect on the world of one
call of `f` with that context. Used as the wrapped circuit of a breaker, a
delegated call returns the pair of `f(ctx)` and leaves the world `f(ctx)` left. -/
theorem circuitFunc_run_is_the_function {κ σ T : Type} (f : CircuitFunc κ σ T) (ctx : κ)
    (w : σ) (nowDone : Time) (st : BreakerState) :
    CircuitFunc.Run f ctx w = f ctx w ∧
    (CircuitFunc.toCircuit f).Run ctx w = f ctx w ∧
    ((Breaker.delegate (CircuitFunc.toCircuit f) nowDone ctx st w [.rLock]).res,
      (Breaker.delegate (CircuitFunc.toCircuit f) nowDone ctx st w [.rLock]).err) = (f ctx w).1 ∧
    (Breaker.delegate (CircuitFunc.toCircuit f) nowDone ctx st w [.rLock]).world = (f ctx w).2 ∧
    (Breaker.delegate (CircuitFunc.toCircuit f) nowDone ctx st w [.rLock]).calls = [ctx] :=
  ⟨rfl, rfl, delegate_pair _ _ _ _ _ _, delegate_world _ _ _ _ _ _, delegate_calls _ _ _ _ _⟩

/-! ## The lock discipline -/

/-- C16: on every path of the closure the trace is one of two: read lock,
read unlock on the early return; read lock, read unlock, invocation, write
lock, write unlock on the failure and on the success path. Either keeps the
discipline: the read lock is released before the circuit is invoked, the
circuit is invoked under no lock, the write lock is taken only after the
invocation, and no lock is held when the closure returns. -/
theorem Run_keeps_lock_discipline {κ σ T : Type} [Inhabited T] (circuit : Circuit κ σ T)
    (failureThreshold : Nat) (nowGate nowDone : Time) (ctx : κ) (st : BreakerState) (w : σ) :
    ∃ r, Breaker.Run circuit failureThreshold nowGate nowDone ctx st w = some r ∧
      ((r.shortCircuited = true ∧ r.trace = [.rLock, .rUnlock]) ∨
        (r.shortCircuited = false ∧ r.trace = [.rLock, .rUnlock, .call ctx, .lock, .unlock])) ∧
      lockDiscipline ⟨false, false, false⟩ r.trace = true := by
  rcases Run_eq_rejected_or_delegate circuit failureThreshold nowGate nowDone ctx st w
    with h | h
  · exact ⟨_, h, Or.inl ⟨rejected_shortCircuited st w, rfl⟩, rfl⟩
  · refine ⟨_, h, Or.inr ⟨delegate_not_shortCircuited _ _ _ _ _, ?_⟩, ?_⟩
    · rw [delegate_trace]; rfl
    · rw [delegate_trace]; rfl

/-- The checker is not vacuous: invoking the circuit under the read lock, or
returning with the write lock held, breaks the discipline. -/
theorem lockDiscipline_rejects_held_locks :
    lockDiscipline ⟨false, false, false⟩
        ([.rLock, .call (), .rUnlock, .lock, .unlock] : List (Event Unit)) = false ∧
    lockDiscipline ⟨false, false, false⟩
        ([.rLock, .rUnlock, .call (), .lock] : List (Event Unit)) = false := by
  decide

/-! ## Calls side by side -/

/-- The closure is its three sections in a row: the gate, then, when the gate
lets the call through, the wrapped circuit and the bookkeeping. -/
theorem Run_eq_gate {κ σ T : Type} [Inhabited T] (circuit : Circuit κ σ T)
    (failureThreshold : Nat) (nowGate nowDone : Time) (ctx : κ) (st : BreakerState) (w : σ) :
    Breaker.Run circuit failureThreshold nowGate nowDone ctx st w
      = (Breaker.gate failureThreshold nowGate st).map fun pass =>
          if pass then Breaker.delegate circuit nowDone ctx st w [.rLock]
          else Breaker.rejected st w := by
  unfold Breaker.Run Breaker.gate
  by_cases hd : 0 ≤ wrapInt64 (st.consecutiveFailures - intOfUint failureThreshold)
  · simp only [hd, if_true]
    cases hs : shlInt64 2 (wrapInt64 (st.consecutiveFailures - intOfUint failureThreshold)) with
    | none => rfl
    | some b =>
      simp only
      by_cases hg : (!nowGate.After (st.lastAttempt.Add b)) = true
      · simp [hg, Breaker.rejected]
      · simp [hg]
  · simp [hd]

theorem delegate_state_eq_record {κ σ T : Type} (circuit : Circuit κ σ T) (nowDone : Time)
    (ctx : κ) (st : BreakerState) (w : σ) (pre : List (Event κ)) :
    (Breaker.delegate circuit nowDone ctx st w pre).state
      = Breaker.record nowDone (circuit.Run ctx w).1.2 st := by
  unfold Breaker.delegate Breaker.record
  cases h : (circuit.Run ctx w).1.2 <;> simp [h]

/-- A call that runs alone in the pool does what the closure does: it returns
the same pair and leaves the same variables and world. -/
theorem exec_alone_eq_Run {κ σ T : Type} [Inhabited T] (circuit : Circuit κ σ T)
    (failureThreshold : Nat) (nowGate nowDone : Time) (ctx : κ) (st : BreakerState) (w : σ)
    (r : RunResult κ σ T)
    (h : Breaker.Run circuit failureThreshold nowGate nowDone ctx st w = some r) :
    Breaker.exec circuit failureThreshold (if r.shortCircuited then [0] else [0, 0, 0])
        ⟨st, w, [⟨ctx, nowGate, nowDone, .atGate⟩]⟩
      = some ⟨r.state, r.world, [⟨ctx, nowGate, nowDone, .returned r.res r.err⟩]⟩ := by
  rw [Run_eq_gate] at h
  cases hg : Breaker.gate failureThreshold nowGate st with
  | none => rw [hg] at h; exact absurd h (by simp)
  | some pass =>
    rw [hg] at h
    simp only [Option.map_some', Option.some.injEq] at h
    cases pass with
    | false =>
      simp only [Bool.false_eq_true, if_false] at h
      subst h
      simp [rejected_shortCircuited, Breaker.exec, Breaker.step, hg, Breaker.rejected]
    | true =>
      simp only [if_true] at h
      subst h
      have hp := delegate_pair circuit nowDone ctx st w [.rLock]
      simp only [Prod.ext_iff] at hp
      simp [delegate_not_shortCircuited, Breaker.exec, Breaker.step, hg,
        delegate_state_eq_record, delegate_world, hp.1, hp.2]

/-- C17: threshold 1, one failure on record (`d = 0`), last attempt at instant
0, so the cooldown of 2 ns is over when two calls read the clock at 10 and at
11. In the interleaving gate, gate, circuit, circuit both calls have passed
the gate and both have invoked the wrapped circuit (invoked once before, three
times now) while the variables of the breaker are still untouched; both then
record a failure. One after the other, the second call would have been
rejected. -/
theorem two_probes_in_one_window :
    (0 ≤ wrapInt64 (1 - intOfUint 1) ∧ (0 : Int) + specBackoff 0 < 10) ∧
    Breaker.exec alwaysFails 1 [0, 1, 0, 1]
        ⟨⟨1, ⟨0⟩⟩, 1, [⟨(), ⟨10⟩, ⟨20⟩, .atGate⟩, ⟨(), ⟨11⟩, ⟨21⟩, .atGate⟩]⟩
      = some ⟨⟨1, ⟨0⟩⟩, 3,
          [⟨(), ⟨10⟩, ⟨20⟩, .invoked 0 (some (errorsNew "downstream failed"))⟩,
           ⟨(), ⟨11⟩, ⟨21⟩, .invoked 0 (some (errorsNew "downstream failed"))⟩]⟩ ∧
    Breaker.exec alwaysFails 1 [0, 1, 0, 1, 0, 1]
        ⟨⟨1, ⟨0⟩⟩, 1, [⟨(), ⟨10⟩, ⟨20⟩, .atGate⟩, ⟨(), ⟨11⟩, ⟨21⟩, .atGate⟩]⟩
      = some ⟨⟨3, ⟨21⟩⟩, 3,
          [⟨(), ⟨10⟩, ⟨20⟩, .returned 0 (some (errorsNew "downstream failed"))⟩,
           ⟨(), ⟨11⟩, ⟨21⟩, .returned 0 (some (errorsNew "downstream failed"))⟩]⟩ ∧
    Breaker.exec alwaysFails 1 [0, 0, 0, 1]
        ⟨⟨1, ⟨0⟩⟩, 1, [⟨(), ⟨10⟩, ⟨20⟩, .atGate⟩, ⟨(), ⟨11⟩, ⟨21⟩, .atGate⟩]⟩
      = some ⟨⟨2, ⟨20⟩⟩, 2,
          [⟨(), ⟨10⟩, ⟨20⟩, .returned 0 (some (errorsNew "downstream failed"))⟩,
           ⟨(), ⟨11⟩, ⟨21⟩, .returned 0 (some (errorsNew "service unreachable"))⟩]⟩ := by
  decide

set_option maxRecDepth 100000 in
/-- How the counter gets 62 and more above the threshold in no time: 63 calls
race through the gate of a fresh breaker with threshold 0 at instant 3, each
fails, each records its failure. The counter is 63, and from here on the
closure adds a cooldown of 0. -/
theorem racing_failures_reach_overflow :
    (Breaker.exec alwaysFails 0 (List.range 63 ++ List.range 63 ++ List.range 63)
        ⟨Breaker.new ⟨0⟩, 0, List.replicate 63 ⟨(), ⟨3⟩, ⟨4⟩, .atGate⟩⟩).map
      (fun s => (s.state, s.world))
      = some (⟨63, ⟨4⟩⟩, 63) ∧
    shlInt64 2 (wrapInt64 (63 - intOfUint 0)) = some 0 := by
  decide

/-! ## The counter over a history -/

theorem delegate_err {κ σ T : Type} (circuit : Circuit κ σ T) (nowDone : Time) (ctx : κ)
    (st : BreakerState) (w : σ) (pre : List (Event κ)) :
    (Breaker.delegate circuit nowDone ctx st w pre).err = (circuit.Run ctx w).1.2 := by
  have hp := delegate_pair circuit nowDone ctx st w pre
  exact congrArg Prod.snd hp

/-- Over any history, the counter follows the count of failing delegated calls
since the most recent succeeding one, in 64-bit wrapping arithmetic. -/
theorem runAll_counter_eq {κ σ T : Type} [Inhabited T] (circuit : Circuit κ σ T)
    (failureThreshold : Nat) (calls : List (Call κ)) (st st1 : BreakerState) (w w1 : σ)
    (rs : List (RunResult κ σ T)) (n : Nat)
    (hn : st.consecutiveFailures = wrapInt64 n)
    (h : Breaker.runAll circuit failureThreshold calls st w = some (rs, st1, w1)) :
    st1.consecutiveFailures = wrapInt64 (rs.foldl countCall n : Nat) := by
  induction calls generalizing st w rs n with
  | nil =>
    simp only [Breaker.runAll, Option.some.injEq, Prod.mk.injEq] at h
    obtain ⟨h1, h2, _⟩ := h
    subst h1 h2
    simpa using hn
  | cons c cs ih =>
    obtain ⟨r, rs1, hr, hrest, hrs⟩ := runAll_cons_some h
    subst hrs
    rw [List.foldl_cons]
    apply ih r.state r.world rs1 (countCall n r) _ hrest
    cases hsc : r.shortCircuited with
    | true =>
      have hrej := Run_shortCircuited hr hsc
      have hst : r.state = st := by rw [hrej]; rfl
      rw [hst, hn]
      simp [countCall, hsc]
    | false =>
      have hdel := Run_delegated hr hsc
      have herr : r.err = (circuit.Run c.ctx w).1.2 := by rw [hdel, delegate_err]
      have hcf : r.state.consecutiveFailures
          = if (circuit.Run c.ctx w).1.2 = none then 0
            else wrapInt64 (st.consecutiveFailures + 1) := by
        rw [hdel, delegate_failures]
      cases he : (circuit.Run c.ctx w).1.2 with
      | none =>
        rw [hcf, he]
        simp only [countCall, hsc, herr, he]
        simp only [Bool.false_eq_true, if_false, Option.isSome_none, if_true, Nat.cast_zero]
        rw [wrapInt64_of_range (by norm_num) (by norm_num)]
      | some e =>
        rw [hcf, he, hn, wrapInt64_add_wrap]
        simp [countCall, hsc, herr, he]

theorem foldl_countCall_le {κ σ T : Type} (rs : List (RunResult κ σ T)) (n : Nat) :
    rs.foldl countCall n ≤ n + delegatedCount rs := by
  induction rs generalizing n with
  | nil => simp [delegatedCount]
  | cons r rs ih =>
    rw [List.foldl_cons, delegatedCount_cons]
    have := ih (countCall n r)
    cases hsc : r.shortCircuited with
    | true =>
      simp only [countCall, hsc, if_true] at this ⊢
      omega
    | false =>
      have hc : countCall n r ≤ n + 1 := by
        simp only [countCall, hsc, Bool.false_eq_true, if_false]
        split <;> omega
      simp only [Bool.false_eq_true, if_false]
      omega

/-- C18, amended: in every state reached from a fresh breaker by a sequence of
calls (any threshold, clock readings and outcomes) in which fewer than `2^63`
delegated calls have failed since the most recent succeeding delegated call,
or since construction when none succeeded, the counter is a non-negative
integer; it is 0 in the initial state. -/
theorem counter_nonneg_below_wrap {κ σ T : Type} [Inhabited T] (circuit : Circuit κ σ T)
    (failureThreshold : Nat) (t0 : Time) (calls : List (Call κ)) (w0 w : σ)
    (rs : List (RunResult κ σ T)) (st : BreakerState)
    (hrun : Breaker.runAll circuit failureThreshold calls (Breaker.new t0) w0 = some (rs, st, w))
    (htrail : trailingFailures rs < 2 ^ 63) :
    (Breaker.new t0).consecutiveFailures = 0 ∧
    0 ≤ st.consecutiveFailures := by
  have hcf := runAll_counter_eq circuit failureThreshold calls (Breaker.new t0) st w0 w rs 0
    (by rw [Nat.cast_zero, wrapInt64_of_range (by norm_num) (by norm_num)]; rfl) hrun
  have hlt : ((rs.foldl countCall 0 : Nat) : Int) < 9223372036854775808 := by
    have : rs.foldl countCall 0 < 9223372036854775808 := by
      unfold trailingFailures at htrail; norm_num at htrail; exact htrail
    exact_mod_cast this
  rw [wrapInt64_of_range (by omega) hlt] at hcf
  exact ⟨rfl, by rw [hcf]; omega⟩

/-- C18 amended, at threshold 3 with a circuit that always fails: after two
delegated failures the counter is 2. -/
theorem counter_nonneg_below_wrap_witness :
    (Breaker.runAll failsWithValue 3 [⟨(), ⟨0⟩, ⟨1⟩⟩, ⟨(), ⟨1⟩, ⟨2⟩⟩] (Breaker.new ⟨0⟩) 0
        = some ([Breaker.delegate failsWithValue ⟨1⟩ () ⟨0, ⟨0⟩⟩ 0 [.rLock],
                 Breaker.delegate failsWithValue ⟨2⟩ () ⟨1, ⟨1⟩⟩ 1 [.rLock]], ⟨2, ⟨2⟩⟩, 2) ∧
      trailingFailures [Breaker.delegate failsWithValue ⟨1⟩ () ⟨0, ⟨0⟩⟩ 0 [.rLock],
                 Breaker.delegate failsWithValue ⟨2⟩ () ⟨1, ⟨1⟩⟩ 1 [.rLock]] < 2 ^ 63) ∧
    ((Breaker.new ⟨0⟩).consecutiveFailures = 0 ∧
      (0 : Int) ≤ (⟨2, ⟨2⟩⟩ : BreakerState).consecutiveFailures) :=
  ⟨⟨by decide, by decide⟩,
    counter_nonneg_below_wrap failsWithValue 3 ⟨0⟩ [⟨(), ⟨0⟩, ⟨1⟩⟩, ⟨(), ⟨1⟩, ⟨2⟩⟩] 0 2
      [Breaker.delegate failsWithValue ⟨1⟩ () ⟨0, ⟨0⟩⟩ 0 [.rLock],
        Breaker.delegate failsWithValue ⟨2⟩ () ⟨1, ⟨1⟩⟩ 1 [.rLock]] ⟨2, ⟨2⟩⟩
      (by decide) (by decide)⟩

/-- C19, amended: for every sequential history of calls on a fresh breaker,
the counter is the number of failing delegated calls made since the most
recent succeeding delegated call (or since construction), taken in 64-bit
wrapping arithmetic; it is that number itself whenever the number is below
`2^63`. Rejected calls and the clock do not enter the count. -/
theorem counter_is_trailing_failures {κ σ T : Type} [Inhabited T] (circuit : Circuit κ σ T)
    (failureThreshold : Nat) (t0 : Time) (calls : List (Call κ)) (w0 w : σ)
    (rs : List (RunResult κ σ T)) (st : BreakerState)
    (hrun : Breaker.runAll circuit failureThreshold calls (Breaker.new t0) w0
      = some (rs, st, w)) :
    st.consecutiveFailures = wrapInt64 (trailingFailures rs) ∧
    (trailingFailures rs < 2 ^ 63 → st.consecutiveFailures = trailingFailures rs) := by
  have hcf := runAll_counter_eq circuit failureThreshold calls (Breaker.new t0) st w0 w rs 0
    (by rw [Nat.cast_zero, wrapInt64_of_range (by norm_num) (by norm_num)]; rfl) hrun
  refine ⟨hcf, fun hlt => ?_⟩
  rw [hcf]
  have hlt2 : ((rs.foldl countCall 0 : Nat) : Int) < 9223372036854775808 := by
    have : rs.foldl countCall 0 < 9223372036854775808 := by
      unfold trailingFailures at hlt; norm_num at hlt; exact hlt
    exact_mod_cast this
  exact wrapInt64_of_range (by omega) hlt2

/-- C19 amended, threshold 1 and a circuit that always fails: two delegated
failures, then a rejected call; the counter is 2, the number of failing
delegated calls. -/
theorem counter_is_trailing_failures_witness :
    Breaker.runAll alwaysFails 1 [⟨(), ⟨5⟩, ⟨10⟩⟩, ⟨(), ⟨20⟩, ⟨30⟩⟩, ⟨(), ⟨34⟩, ⟨35⟩⟩]
        (Breaker.new ⟨0⟩) 0
      = some ([Breaker.delegate alwaysFails ⟨10⟩ () ⟨0, ⟨0⟩⟩ 0 [.rLock],
               Breaker.delegate alwaysFails ⟨30⟩ () ⟨1, ⟨10⟩⟩ 1 [.rLock],
               Breaker.rejected ⟨2, ⟨30⟩⟩ 2], ⟨2, ⟨30⟩⟩, 2) ∧
    trailingFailures [Breaker.delegate alwaysFails ⟨10⟩ () ⟨0, ⟨0⟩⟩ 0 [.rLock],
               Breaker.delegate alwaysFails ⟨30⟩ () ⟨1, ⟨10⟩⟩ 1 [.rLock],
               (Breaker.rejected ⟨2, ⟨30⟩⟩ 2 : RunResult Unit Nat Nat)] = 2 ∧
    (⟨2, ⟨30⟩⟩ : BreakerState).consecutiveFailures
      = wrapInt64 (trailingFailures [Breaker.delegate alwaysFails ⟨10⟩ () ⟨0, ⟨0⟩⟩ 0 [.rLock],
               Breaker.delegate alwaysFails ⟨30⟩ () ⟨1, ⟨10⟩⟩ 1 [.rLock],
               (Breaker.rejected ⟨2, ⟨30⟩⟩ 2 : RunResult Unit Nat Nat)]) :=
  ⟨by decide, by decide,
    (counter_is_trailing_failures alwaysFails 1 ⟨0⟩
      [⟨(), ⟨5⟩, ⟨10⟩⟩, ⟨(), ⟨20⟩, ⟨30⟩⟩, ⟨(), ⟨34⟩, ⟨35⟩⟩] 0 2
      [Breaker.delegate alwaysFails ⟨10⟩ () ⟨0, ⟨0⟩⟩ 0 [.rLock],
        Breaker.delegate alwaysFails ⟨30⟩ () ⟨1, ⟨10⟩⟩ 1 [.rLock],
        Breaker.rejected ⟨2, ⟨30⟩⟩ 2] ⟨2, ⟨30⟩⟩ (by decide)).1⟩

/-! ## The counter at the end of the `int` range -/

theorem delegatedCount_of_all_delegated {κ σ T : Type} (rs : List (RunResult κ σ T))
    (h : ∀ r ∈ rs, r.shortCircuited = false) : delegatedCount rs = rs.length := by
  induction rs with
  | nil => rfl
  | cons r rs ih =>
    rw [delegatedCount_cons, h r (List.mem_cons_self _ _),
      ih (fun r1 hr1 => h r1 (List.mem_cons_of_mem _ hr1))]
    simp only [Bool.false_eq_true, if_false, List.length_cons]
    omega

theorem foldl_countCall_of_all_failing {κ σ T : Type} (rs : List (RunResult κ σ T)) (n : Nat)
    (h : ∀ r ∈ rs, r.shortCircuited = false ∧ r.err ≠ none) :
    rs.foldl countCall n = n + rs.length := by
  induction rs generalizing n with
  | nil => rfl
  | cons r rs ih =>
    obtain ⟨hsc, herr⟩ := h r (List.mem_cons_self _ _)
    rw [List.foldl_cons, ih _ (fun r1 hr1 => h r1 (List.mem_cons_of_mem _ hr1))]
    have : countCall n r = n + 1 := by
      cases he : r.err with
      | none => exact absurd he herr
      | some e => simp [countCall, hsc, he]
    rw [this, List.length_cons]
    omega

/-- With a threshold up to `2^63`, a circuit that always fails is invoked by
every call of a history as long as the counter has room below the threshold. -/
theorem runAll_failing_to_limit {κ σ T : Type} [Inhabited T] (circuit : Circuit κ σ T)
    (N : Nat) (hN : N ≤ 2 ^ 63) (hfails : ∀ ctx w, (circuit.Run ctx w).1.2 ≠ none)
    (calls : List (Call κ)) (st : BreakerState) (w : σ)
    (h0 : 0 ≤ st.consecutiveFailures)
    (hroom : st.consecutiveFailures + calls.length ≤ N) :
    ∃ rs st1 w1, Breaker.runAll circuit N calls st w = some (rs, st1, w1) ∧
      (∀ r ∈ rs, r.shortCircuited = false ∧ r.err ≠ none) ∧
      rs.length = calls.length := by
  have hN2 : (N : Int) ≤ 9223372036854775808 := by
    have : N ≤ 9223372036854775808 := by norm_num at hN; exact hN
    exact_mod_cast this
  induction calls generalizing st w with
  | nil => exact ⟨[], st, w, rfl, by simp, rfl⟩
  | cons c cs ih =>
    simp only [List.length_cons, Nat.cast_add, Nat.cast_one] at hroom
    have hrun := below_threshold_delegates circuit N c.nowGate c.nowDone c.ctx st w
      (by omega) (by norm_num; omega)
    have hgood : (Breaker.delegate circuit c.nowDone c.ctx st w [.rLock]).shortCircuited = false ∧
        (Breaker.delegate circuit c.nowDone c.ctx st w [.rLock]).err ≠ none :=
      ⟨delegate_not_shortCircuited _ _ _ _ _, by rw [delegate_err]; exact hfails _ _⟩
    cases cs with
    | nil =>
      refine ⟨[Breaker.delegate circuit c.nowDone c.ctx st w [.rLock]],
        (Breaker.delegate circuit c.nowDone c.ctx st w [.rLock]).state,
        (Breaker.delegate circuit c.nowDone c.ctx st w [.rLock]).world, ?_, ?_, rfl⟩
      · rw [runAll_cons_eq _ _ _ _ _ _ _ hrun]; rfl
      · intro r hr
        rw [List.mem_singleton.mp hr]
        exact hgood
    | cons c2 cs2 =>
      simp only [List.length_cons, Nat.cast_add, Nat.cast_one] at hroom
      have hcf : (Breaker.delegate circuit c.nowDone c.ctx st w [.rLock]).state.consecutiveFailures
          = st.consecutiveFailures + 1 := by
        rw [delegate_failures, if_neg (hfails _ _)]
        apply wrapInt64_of_range <;> omega
      obtain ⟨rs, st1, w1, hrest, hall, hlen⟩ :=
        ih (Breaker.delegate circuit c.nowDone c.ctx st w [.rLock]).state
          (Breaker.delegate circuit c.nowDone c.ctx st w [.rLock]).world
          (by rw [hcf]; omega)
          (by rw [hcf]; simp only [List.length_cons, Nat.cast_add, Nat.cast_one]; omega)
      refine ⟨Breaker.delegate circuit c.nowDone c.ctx st w [.rLock] :: rs, st1, w1, ?_, ?_, ?_⟩
      · rw [runAll_cons_eq _ _ _ _ _ _ _ hrun, hrest]; rfl
      · intro r hr
        rcases List.mem_cons.mp hr with h1 | h1
        · rw [h1]; exact hgood
        · exact hall r h1
      · simp only [List.length_cons, hlen]

/-- The history that wraps the counter: a fresh breaker with threshold `2^63`
around a circuit that always fails, called `2^63` times. Every call is
delegated and fails, and the counter ends at `-2^63`. -/
theorem history_of_wrapping_failures :
    ∃ rs st w,
      Breaker.runAll alwaysFails 9223372036854775808
          (List.replicate 9223372036854775808 ⟨(), ⟨0⟩, ⟨0⟩⟩) (Breaker.new ⟨0⟩) 0
        = some (rs, st, w) ∧
      (∀ r ∈ rs, r.shortCircuited = false ∧ r.err ≠ none) ∧
      rs.length = 9223372036854775808 ∧
      st.consecutiveFailures = -9223372036854775808 := by
  obtain ⟨rs, st, w, hrun, hall, hlen⟩ :=
    runAll_failing_to_limit alwaysFails 9223372036854775808 (by norm_num)
      (fun _ _ => by simp [alwaysFails])
      (List.replicate 9223372036854775808 ⟨(), ⟨0⟩, ⟨0⟩⟩) (Breaker.new ⟨0⟩) 0
      (by simp [Breaker.new])
      (by rw [List.length_replicate]; simp [Breaker.new])
  rw [List.length_replicate] at hlen
  refine ⟨rs, st, w, hrun, hall, hlen, ?_⟩
  have hcf := runAll_counts_failures alwaysFails _ _ _ st 0 w rs
    (by simp [Breaker.new]) (by simp [Breaker.new]) hrun (fun r hr _ => (hall r hr).2)
  rw [delegatedCount_of_all_delegated rs (fun r hr => (hall r hr).1), hlen] at hcf
  rw [hcf]
  simp only [Breaker.new, wrapInt64_eq]
  norm_num

/-- C18, as stated, fails at the end of the `int` range: on a fresh breaker
with threshold 9223372036854775808 around a circuit that always fails, the
state reached by 9223372036854775808 calls has a negative counter. -/
theorem counter_negative_after_wrap :
    ∃ rs st w,
      Breaker.runAll alwaysFails 9223372036854775808
          (List.replicate 9223372036854775808 ⟨(), ⟨0⟩, ⟨0⟩⟩) (Breaker.new ⟨0⟩) 0
        = some (rs, st, w) ∧
      st.consecutiveFailures < 0 := by
  obtain ⟨rs, st, w, hrun, _, _, hcf⟩ := history_of_wrapping_failures
  exact ⟨rs, st, w, hrun, by rw [hcf]; norm_num⟩

/-- C19, as stated, fails at the end of the `int` range: in the same history
9223372036854775808 delegated calls have failed since construction and none
has succeeded, and the counter is -9223372036854775808. The last of these
failures took the counter down from 9223372036854775807. -/
theorem counter_differs_from_count_after_wrap :
    (∃ rs st w,
      Breaker.runAll alwaysFails 9223372036854775808
          (List.replicate 9223372036854775808 ⟨(), ⟨0⟩, ⟨0⟩⟩) (Breaker.new ⟨0⟩) 0
        = some (rs, st, w) ∧
      trailingFailures rs = 9223372036854775808 ∧
      st.consecutiveFailures ≠ trailingFailures rs) ∧
    Breaker.Run alwaysFails 9223372036854775808 ⟨0⟩ ⟨0⟩ () ⟨9223372036854775807, ⟨0⟩⟩ 0
      = some { res := 0, err := some (errorsNew "downstream failed"),
               state := ⟨-9223372036854775808, ⟨0⟩⟩, world := 1,
               trace := [.rLock, .rUnlock, .call (), .lock, .unlock] } := by
  refine ⟨?_, by decide⟩
  obtain ⟨rs, st, w, hrun, hall, hlen, hcf⟩ := history_of_wrapping_failures
  have htr : trailingFailures rs = 9223372036854775808 := by
    unfold trailingFailures
    rw [foldl_countCall_of_all_failing rs 0 hall, hlen]
  refine ⟨rs, st, w, hrun, htr, ?_⟩
  rw [hcf, htr]
  norm_num

end CircuitBreaker
